import Mathlib

/-!
Verification of the Omnivore-to-MD conversion pipeline.

Shallow embedding of the converter module (types `ArticleMetadata`,
`ConversionResult`, `ProcessLog`; functions `downloadImage`,
`processMarkdownImages`, `convertHtmlToMarkdown`, `processZipContent`).
Strings are Lean `String`s (wrapping `List Char`), binary buffers are
`List Nat` (byte lists), and the network is an explicit oracle parameter.
The concurrent per-article image fetches are modelled by executing each
fetch's completion handler atomically in dispatch order (thumbnail first,
then body images in document order); every property proved below is
insensitive to the completion schedule except where the text says so.

The HTML-to-Markdown transformer (module markdown-converter,
`createMarkdownContent`) is not part of the sources; per the spec it is a
pure function of the HTML body and the source URL, so the pipeline is
parameterised by it.
-/

namespace OmniMD

/-- Severity of a process log entry (type field of `ProcessLog`). -/
inductive LogType where
  | info
  | warning
  | error
deriving DecidableEq, Repr

/-- One emitted process-log event (`emitProcessLog` payload, timestamp elided). -/
structure LogEntry where
  type : LogType
  message : String
deriving DecidableEq, Repr

/-- A metadata field value: JS strings versus everything else.  A non-string
value is carried by the string that the template literal renders it to. -/
inductive MetaVal where
  | str (s : String)
  | other (rendering : String)
deriving DecidableEq, Repr

/-- The `ArticleMetadata` record: a JS object, i.e. an ordered list of named
fields (`slug`, `url`, optionally `thumbnail`, and arbitrary others). -/
structure Meta where
  fields : List (String × MetaVal)
deriving DecidableEq, Repr

/-- Field lookup (`metadata.key`). -/
def Meta.get (m : Meta) (k : String) : Option MetaVal :=
  (m.fields.find? (fun kv => kv.1 == k)).map (·.2)

/-- String-typed field lookup: JS `metadata.key` when the field holds a string. -/
def Meta.getStr (m : Meta) (k : String) : Option String :=
  match m.get k with
  | some (.str s) => some s
  | _ => none

/-- Truthy thumbnail (`metadata?.thumbnail` guard): a present, non-empty
string-valued thumbnail field.  (Non-string thumbnail values are outside the
modelled input domain.) -/
def Meta.thumb (m : Meta) : Option String :=
  match m.getStr "thumbnail" with
  | some s => if s = "" then none else some s
  | none => none

/-- JS `metadata?.slug || "untitled"`. -/
def Meta.slugOr (m : Meta) : String :=
  match m.getStr "slug" with
  | some s => if s = "" then "untitled" else s
  | none => "untitled"

/-- JS property assignment `metadata.key = v`: update in place when the key
exists (keeping its position), append otherwise. -/
def Meta.setField (m : Meta) (k : String) (v : MetaVal) : Meta :=
  if m.fields.any (fun kv => kv.1 == k) then
    ⟨m.fields.map (fun kv => if kv.1 == k then (kv.1, v) else kv)⟩
  else
    ⟨m.fields ++ [(k, v)]⟩

/-- Result of one `downloadImage` call: resolved with data, resolved with
null, or rejected (the carried string is the JS error message). -/
inductive DLResult where
  | success (data : List Nat)
  | nullResult
  | thrown (msg : String)
deriving DecidableEq, Repr

/-- Outcome of one network fetch attempt: HTTP-success response whose body
read succeeds, a non-success response, a thrown fetch error (network failure
/ timeout abort), or an HTTP-success response whose body read
(`await response.arrayBuffer()`) then rejects. -/
inductive FetchOutcome where
  | ok (data : List Nat)
  | notOk
  | err
  | okErr
deriving DecidableEq, Repr

/-- A `DownloadFailure` record. -/
structure Failure where
  url : String
  filename : String
  error : String
deriving DecidableEq, Repr

/-- One `imageDownloadProgress` window event: the emitted progress value
(`(completed / total) * 100`) and the URL. -/
structure PEvent where
  progress : ℚ
  url : String
deriving DecidableEq, Repr

/-- Payload of a `ConversionResult`: UTF-8 text or a binary buffer. -/
inductive CContent where
  | text (s : String)
  | bin (b : List Nat)
deriving DecidableEq, Repr

/-- A `ConversionResult` output unit; `binary := false` models an absent flag. -/
structure CResult where
  filename : String
  content : CContent
  binary : Bool
deriving DecidableEq, Repr

/-! ## String primitives -/

/-- Does `sub` occur as a contiguous run of `l` (JS `String.prototype.includes`)? -/
def containsSubL (sub : List Char) : List Char → Bool
  | [] => sub.isEmpty
  | c :: t => sub.isPrefixOf (c :: t) || containsSubL sub t

/-- JS `s.includes(sub)`. -/
def containsSub (s sub : String) : Bool := containsSubL sub.toList s.toList

/-- JS `s.replace(pat, rep)` with a plain-string pattern: replace the first
occurrence only; the unchanged string when there is none. -/
def replaceFirstL (pat rep : List Char) : List Char → List Char
  | [] => if pat.isEmpty then rep else []
  | c :: t =>
    if pat.isPrefixOf (c :: t) then rep ++ (c :: t).drop pat.length
    else c :: replaceFirstL pat rep t

/-- JS first-occurrence string replacement. -/
def replaceFirst (s pat rep : String) : String :=
  (replaceFirstL pat.toList rep.toList s.toList).asString

/-- Drop a literal suffix when present (JS `s.replace(/suf$/, "")`). -/
def dropSuffixL (l suf : List Char) : List Char :=
  if suf.isSuffixOf l then l.take (l.length - suf.length) else l

/-- JS anchored-suffix removal, e.g. `.replace(/\.md$/, "")`. -/
def dropSuffixStr (s suf : String) : String :=
  (dropSuffixL s.toList suf.toList).asString

/-- JS `s.split("?")[0]` (everything before the first question mark). -/
def stripQuery (s : String) : String :=
  (s.toList.takeWhile (fun c => c ≠ '?')).asString

/-- The segment after the last slash: JS `s.split("/").pop()`. -/
def lastSegL : List Char → List Char :=
  fun l => l.foldl (fun acc c => if c = '/' then [] else acc ++ [c]) []

/-- Decimal digit character. -/
def digitChar (n : Nat) : Char := Char.ofNat (48 + n)

/-- Fuelled decimal-digit extraction; the fuel only bounds the recursion
depth (a number below its fuel is fully rendered). -/
def natDigitsF : Nat → Nat → List Char
  | 0, _ => []
  | fuel + 1, n =>
    if n < 10 then [digitChar n]
    else natDigitsF fuel (n / 10) ++ [digitChar (n % 10)]

/-- Decimal digits of a natural number (JS number-to-string for naturals,
as produced by the template literal on the image counter). -/
def natDigits (n : Nat) : List Char := natDigitsF (n + 1) n

theorem natDigitsF_irrel :
    ∀ (f1 : Nat) (n : Nat) (f2 : Nat), n < f1 → n < f2 →
      natDigitsF f1 n = natDigitsF f2 n := by
  intro f1
  induction f1 with
  | zero => intro n f2 h1 _; omega
  | succ f ih =>
    intro n f2 h1 h2
    cases f2 with
    | zero => omega
    | succ f2' =>
      rw [natDigitsF, natDigitsF]
      by_cases hn : n < 10
      · rw [if_pos hn, if_pos hn]
      · rw [if_neg hn, if_neg hn]
        have hdiv : n / 10 < n := Nat.div_lt_self (by omega) (by norm_num)
        rw [ih (n / 10) f2' (by omega) (by omega)]

theorem natDigits_eq (n : Nat) :
    natDigits n = if n < 10 then [digitChar n]
      else natDigits (n / 10) ++ [digitChar (n % 10)] := by
  rw [natDigits, natDigitsF]
  by_cases hn : n < 10
  · rw [if_pos hn, if_pos hn]
  · rw [if_neg hn, if_neg hn, natDigits]
    have hdiv : n / 10 < n := Nat.div_lt_self (by omega) (by norm_num)
    rw [natDigitsF_irrel n (n / 10) (n / 10 + 1) (by omega) (by omega)]

/-- JS decimal rendering of a natural number. -/
def natStr (n : Nat) : String := (natDigits n).asString

/-! ## Image-reference scanner

The converter scans Markdown with the JS regex (global flag)

  !\[.*?\]\((https?:\/\/[^\s)]+)\)

and collects the captured URLs.  `.` does not cross line terminators, `.*?`
is lazy, the character class is greedy, and matches do not overlap
(`matchAll` resumes after each full match). -/

/-- JS `\s` on the ASCII range. -/
def isSpaceJS (c : Char) : Bool :=
  c = ' ' || c = '\t' || c = '\n' || c = '\r' || c = '\x0b' || c = '\x0c'

/-- A character ending the `[^\s)]+` URL run. -/
def urlStop (c : Char) : Bool := isSpaceJS c || c = ')'

/-- Match the literal scheme `https?:\/\/` at the head of the list; on
success return the scheme text (with separator) and the remaining characters.
The optional `s` is greedy, as in the regex. -/
def matchScheme : List Char → Option (List Char × List Char)
  | 'h' :: 't' :: 't' :: 'p' :: 's' :: ':' :: '/' :: '/' :: rest =>
    some (['h', 't', 't', 'p', 's', ':', '/', '/'], rest)
  | 'h' :: 't' :: 't' :: 'p' :: ':' :: '/' :: '/' :: rest =>
    some (['h', 't', 't', 'p', ':', '/', '/'], rest)
  | _ => none

theorem matchScheme_length {l sch r : List Char} (h : matchScheme l = some (sch, r)) :
    r.length + 7 ≤ l.length := by
  unfold matchScheme at h
  split at h <;> simp_all

/-- Match `(https?:\/\/[^\s)]+)\)` at the head of `l`; on success return the
captured URL and the characters after the closing parenthesis. -/
def matchUrlAt (l : List Char) : Option (List Char × List Char) :=
  match matchScheme l with
  | none => none
  | some (sch, rest3) =>
    let run := rest3.takeWhile (fun c => !urlStop c)
    match rest3.dropWhile (fun c => !urlStop c) with
    | ')' :: rest5 => if run.isEmpty then none else some (sch ++ run, rest5)
    | _ => none

theorem dropWhile_length_le (p : Char → Bool) (l : List Char) :
    (l.dropWhile p).length ≤ l.length := by
  induction l with
  | nil => simp
  | cons c t ih =>
    by_cases hc : p c
    · simpa [List.dropWhile, hc] using Nat.le_succ_of_le ih
    · simp [List.dropWhile, hc]

theorem matchUrlAt_length {l u r : List Char} (h : matchUrlAt l = some (u, r)) :
    r.length < l.length := by
  unfold matchUrlAt at h
  rcases hm : matchScheme l with _ | ⟨sch, rest3⟩
  · rw [hm] at h; exact absurd h (by simp)
  · rw [hm] at h
    dsimp only at h
    have hs := matchScheme_length hm
    rcases hd : rest3.dropWhile (fun c => !urlStop c) with _ | ⟨c, rest5⟩
    · rw [hd] at h; exact absurd h (by simp)
    · rw [hd] at h
      have hlen : rest5.length < rest3.length + 1 := by
        have := dropWhile_length_le (fun c => !urlStop c) rest3
        rw [hd] at this
        simpa using Nat.lt_succ_of_le (Nat.le_of_succ_le (Nat.succ_le_of_lt
          (Nat.lt_of_lt_of_le (Nat.lt_succ_self _) (by simpa using this))))
      split at h
      next rest5' heq =>
        rcases List.cons.inj heq with ⟨hc, hr5⟩
        split at h
        · exact absurd h (by simp)
        · rcases Option.some.inj h with h'
          have hr : r = rest5 := ((congrArg Prod.snd h').symm).trans hr5.symm
          rw [hr]
          omega
      next hne =>
        exact absurd h (by simp)

/-- After an opening `![`, find the lazy `.*?\]\(` continuation: scan forward
(never across a line terminator, as `.` does not match one), and at the
earliest `](` whose follow-up parses as `(https?:\/\/[^\s)]+)\)` succeed;
otherwise keep extending the lazy gap one character at a time.  The fuel
argument equals the scanned list's length at every call, so it never runs
out before the list does. -/
def afterBracketF : Nat → List Char → Option (List Char × List Char)
  | 0, _ => none
  | fuel + 1, l =>
    match l with
    | ']' :: '(' :: rest =>
      (match matchUrlAt rest with
       | some ur => some ur
       | none => afterBracketF fuel ('(' :: rest))
    | '\n' :: _ => none
    | '\r' :: _ => none
    | [] => none
    | _ :: t => afterBracketF fuel t

/-- The lazy `.*?\]\(` continuation scan. -/
def afterBracket (l : List Char) : Option (List Char × List Char) :=
  afterBracketF l.length l

theorem afterBracketF_length :
    ∀ (fuel : Nat) (l : List Char) (u r : List Char),
      afterBracketF fuel l = some (u, r) → r.length < l.length := by
  intro fuel
  induction fuel with
  | zero => intro l u r h; cases h
  | succ f ih =>
    intro l u r h
    rw [afterBracketF.eq_def] at h
    dsimp only at h
    split at h
    next rest =>
      rcases hm : matchUrlAt rest with _ | ur
      · rw [hm] at h
        dsimp only at h
        have := ih _ _ _ h
        simp only [List.length_cons] at this ⊢
        omega
      · rw [hm] at h
        dsimp only at h
        rcases Option.some.inj h with rfl
        have := matchUrlAt_length hm
        simp only [List.length_cons]
        omega
    next => cases h
    next => cases h
    next => cases h
    next c t h1 h2 h3 h4 =>
      have := ih _ _ _ h
      simp only [List.length_cons]
      omega

/-- All URLs captured by the global image regex, left to right, matches not
overlapping (`[...markdown.matchAll(imageRegex)].map(m => m[1])`).  The fuel
never runs out before the scanned text: every recursive call consumes one
unit of fuel and strictly shortens the text (`afterBracketF_length`), so
starting it at the text's length is always enough. -/
def scanCapturesF : Nat → List Char → List (List Char)
  | 0, _ => []
  | fuel + 1, l =>
    match l with
    | '!' :: '[' :: rest =>
      (match afterBracket rest with
       | some ur => ur.1 :: scanCapturesF fuel ur.2
       | none => scanCapturesF fuel ('[' :: rest))
    | [] => []
    | _ :: t => scanCapturesF fuel t

/-- The full left-to-right scan of a text. -/
def scanCaptures (l : List Char) : List (List Char) := scanCapturesF l.length l

/-- Captured image URLs of a Markdown document, in document order. -/
def scanImages (s : String) : List String :=
  (scanCaptures s.toList).map List.asString

/-! ## The Image Acquirer (`downloadImage`) -/

/-- The proxy-host marker tested by `url.includes(...)`. -/
def proxyMarker : String := "proxy-prod.omnivore-image-cache.app"

/-- The literal head of the original-URL extraction regex. -/
def proxyUrlHead : String := "https://proxy-prod.omnivore-image-cache.app/"

/-- Scan for the lazy `.*?\/(https?.*)` part after the proxy-prefix literal:
stop at a line terminator; at each slash whose continuation starts with
`http`, capture that continuation up to the end of the line. -/
def extractScan : List Char → Option (List Char)
  | [] => none
  | '\n' :: _ => none
  | '\r' :: _ => none
  | '/' :: rest =>
    if ("http".toList).isPrefixOf rest then
      some (rest.takeWhile (fun c => c ≠ '\n' && c ≠ '\r'))
    else extractScan rest
  | _ :: t => extractScan t

/-- First match of `\/https:\/\/proxy-prod\.omnivore-image-cache\.app\/.*?\/(https?.*)\/`
over the URL: the capture of the embedded original URL, scanning literal-prefix
occurrences left to right. -/
def extractOriginal : List Char → Option (List Char)
  | [] => none
  | c :: t =>
    if proxyUrlHead.toList.isPrefixOf (c :: t) then
      match extractScan ((c :: t).drop proxyUrlHead.toList.length) with
      | some cap => some cap
      | none => extractOriginal t
    else extractOriginal t

/-- Hexadecimal digit value. -/
def hexVal (c : Char) : Option Nat :=
  if '0' ≤ c ∧ c ≤ '9' then some (c.toNat - 48)
  else if 'A' ≤ c ∧ c ≤ 'F' then some (c.toNat - 55)
  else if 'a' ≤ c ∧ c ≤ 'f' then some (c.toNat - 87)
  else none

/-- JS `decodeURIComponent` on the single-byte (ASCII) range: decodes `%hh`
escapes below 0x80 and passes other characters through; `none` models the
thrown `URIError` on a malformed escape.  Multi-byte UTF-8 escapes are
outside the modelled input domain. -/
def percentDecodeL : List Char → Option (List Char)
  | [] => some []
  | '%' :: h1 :: h2 :: rest =>
    (match hexVal h1, hexVal h2 with
     | some a, some b =>
       if 16 * a + b < 128 then (percentDecodeL rest).map (Char.ofNat (16 * a + b) :: ·)
       else none
     | _, _ => none)
  | '%' :: _ :: [] => none
  | '%' :: [] => none
  | c :: t => (percentDecodeL t).map (c :: ·)

/-- String-level ASCII `decodeURIComponent`. -/
def percentDecode (s : String) : Option String :=
  (percentDecodeL s.toList).map List.asString

/-- Result and emitted process logs of one `downloadImage` call. -/
structure DLOut where
  res : DLResult
  logs : List LogEntry
deriving DecidableEq, Repr

/-- The trailing direct-fetch attempt (lines 69-78): an HTTP-success response
whose body read succeeds returns the body with an info log; a thrown fetch
error emits an error log; an HTTP-success response whose body read rejects
emits the info log first (line 72 precedes the body read) and then the
catch's error log; any non-return ends in the `null` result.  A non-success
response that does not throw emits no log. -/
def directAttempt (fetch : Nat → String → FetchOutcome) (n : Nat) (url : String)
    (logs : List LogEntry) : DLOut :=
  match fetch n url with
  | .ok d => ⟨.success d, logs ++ [⟨.info, "Successfully downloaded image: " ++ url⟩]⟩
  | .notOk => ⟨.nullResult, logs⟩
  | .err => ⟨.nullResult, logs ++ [⟨.error, "Failed to download image: " ++ url⟩]⟩
  | .okErr => ⟨.nullResult, logs ++ [⟨.info, "Successfully downloaded image: " ++ url⟩,
      ⟨.error, "Failed to download image: " ++ url⟩]⟩

/-- The function `downloadImage(url)`.  Here `fetch n u` is the outcome of the `n`-th network
call of this invocation (`fetchWithTimeout`); `dec` models
`decodeURIComponent`, with `none` for a thrown `URIError`, which the source
does not catch, so it rejects the whole call. -/
def downloadImage (fetch : Nat → String → FetchOutcome) (dec : String → Option String)
    (url : String) : DLOut :=
  if containsSub url proxyMarker then
    match fetch 0 url with
    | .ok d => ⟨.success d, [⟨.info, "Successfully downloaded image from proxy: " ++ url⟩]⟩
    | a0 =>
      let logs0 : List LogEntry :=
        match a0 with
        | .err => [⟨.warning, "Failed to download from proxy URL: " ++ url⟩]
        | .okErr => [⟨.info, "Successfully downloaded image from proxy: " ++ url⟩,
            ⟨.warning, "Failed to download from proxy URL: " ++ url⟩]
        | _ => []
      match extractOriginal url.toList with
      | some cap =>
        (match dec cap.asString with
         | none => ⟨.thrown "URI malformed", logs0⟩
         | some orig =>
           match fetch 1 orig with
           | .ok d => ⟨.success d,
               logs0 ++ [⟨.info, "Successfully downloaded image from original URL: " ++ orig⟩]⟩
           | a1 =>
             let logs1 := logs0 ++
               (match a1 with
                | .err => [⟨.warning, "Failed to download from original URL: " ++ orig⟩]
                | .okErr => [⟨.info,
                      "Successfully downloaded image from original URL: " ++ orig⟩,
                    ⟨.warning, "Failed to download from original URL: " ++ orig⟩]
                | _ => [])
             directAttempt fetch 2 url logs1)
      | none => directAttempt fetch 1 url logs0
  else directAttempt fetch 0 url []

/-! ## Filename derivation (`processMarkdownImages`, lines 118-201) -/

/-- The recognised image extensions. -/
def validImageExtensions : List String := ["jpg", "jpeg", "png", "gif", "webp", "svg"]

/-- Extension derivation: split the URL on dots; when there are at least two
parts, lowercase the final part and trim at the first `#` or `?`; keep it when
recognised, and default to `png` in every other case. -/
def extFromUrl (u : String) : String :=
  let parts := u.toList.splitOn '.'
  if parts.length > 1 then
    let urlExt := ((parts.getLastD []).map Char.toLower).takeWhile
      (fun c => c ≠ '#' && c ≠ '?')
    if validImageExtensions.contains urlExt.asString then urlExt.asString else "png"
  else "png"

/-- Keep exactly the characters in `[a-zA-Z0-9-]`. -/
def isAllowedChar (c : Char) : Bool :=
  ('a' ≤ c && c ≤ 'z') || ('A' ≤ c && c ≤ 'Z') || ('0' ≤ c && c ≤ '9') || c = '-'

/-- JS `baseFilename.replace(/[^a-zA-Z0-9-]/g, "")`. -/
def cleanBase (s : String) : String := (s.toList.filter isAllowedChar).asString

/-- Derived body-image filename for counter value `i` and an already
query-stripped URL: the cleaned base, a dash, the counter, a dot, the extension. -/
def bodyFilename (base : String) (i : Nat) (strippedUrl : String) : String :=
  cleanBase base ++ "-" ++ natStr i ++ "." ++ extFromUrl strippedUrl

/-- Derived thumbnail filename: the raw base (only `.md` removed), the literal
`-thumbnail`, and the extension of the unstripped thumbnail URL. -/
def thumbFilename (base : String) (thumbUrl : String) : String :=
  base ++ "-thumbnail." ++ extFromUrl thumbUrl

/-! ## The Article Converter (`processMarkdownImages`, `convertHtmlToMarkdown`) -/

/-- JS object property write `o[k] = v` on a string-keyed object viewed as its
ordered entry list: overwrite in place when the key exists, append otherwise. -/
def insertJS {β : Type} (m : List (String × β)) (k : String) (v : β) : List (String × β) :=
  if m.any (fun kv => kv.1 == k) then
    m.map (fun kv => if kv.1 == k then (kv.1, v) else kv)
  else m ++ [(k, v)]

/-- State of one `processMarkdownImages` run: the rewritten Markdown, the
`images` object, the `failures` array, the emitted progress events, the
`completed` counter, the `imageCounter`, and the (mutated) metadata object. -/
structure PMIState where
  md : String
  images : List (String × List Nat)
  failures : List Failure
  events : List PEvent
  completed : Nat
  counter : Nat
  meta : Option Meta
deriving DecidableEq, Repr

/-- Completion handler of the thumbnail download (lines 143-176): on data,
store the buffer and point `metadata.thumbnail` at the attachment; on null,
record a failure; on rejection, record a failure with the error message.
Every branch advances `completed`; only the non-rejection branches emit an
`imageDownloadProgress` event. -/
def thumbStep (dl : String → DLResult) (total : Nat) (base : String)
    (turl : String) (st : PMIState) : PMIState :=
  let fname := thumbFilename base turl
  match dl turl with
  | .success d =>
    { st with
      images := insertJS st.images fname d
      meta := st.meta.map (fun m => m.setField "thumbnail" (.str ("./attachments/" ++ fname)))
      completed := st.completed + 1
      events := st.events ++ [⟨(((st.completed + 1 : Nat) : ℚ) / ((total : Nat) : ℚ)) * 100, turl⟩] }
  | .nullResult =>
    { st with
      failures := st.failures ++ [⟨turl, fname, "Download failed"⟩]
      completed := st.completed + 1
      events := st.events ++ [⟨(((st.completed + 1 : Nat) : ℚ) / ((total : Nat) : ℚ)) * 100, turl⟩] }
  | .thrown msg =>
    { st with
      failures := st.failures ++ [⟨turl, fname, msg⟩]
      completed := st.completed + 1 }

/-- Completion handler of one body-image download (lines 181-250): the URL is
query-stripped, the filename drawn from the counter; on data, store the buffer
and rewrite the first occurrence of the unstripped matched URL; on null,
record a failure; on rejection, record a failure with the error message.
Every branch advances `completed`; only the non-rejection branches emit an
`imageDownloadProgress` event. -/
def bodyStep (dl : String → DLResult) (total : Nat) (base : String)
    (st : PMIState) (origUrl : String) : PMIState :=
  let imageUrl := stripQuery origUrl
  let fname := bodyFilename base st.counter imageUrl
  match dl imageUrl with
  | .success d =>
    { st with
      images := insertJS st.images fname d
      md := replaceFirst st.md origUrl ("./attachments/" ++ fname)
      counter := st.counter + 1
      completed := st.completed + 1
      events := st.events ++ [⟨(((st.completed + 1 : Nat) : ℚ) / ((total : Nat) : ℚ)) * 100, imageUrl⟩] }
  | .nullResult =>
    { st with
      failures := st.failures ++ [⟨imageUrl, fname, "Download failed"⟩]
      counter := st.counter + 1
      completed := st.completed + 1
      events := st.events ++ [⟨(((st.completed + 1 : Nat) : ℚ) / ((total : Nat) : ℚ)) * 100, imageUrl⟩] }
  | .thrown msg =>
    { st with
      failures := st.failures ++ [⟨imageUrl, fname, msg⟩]
      counter := st.counter + 1
      completed := st.completed + 1 }

/-- The function `processMarkdownImages(markdown, mdFilename, metadata)`, with `dl` the
Image Acquirer (`downloadImage`) as an oracle from the query-stripped URL (or
unstripped thumbnail URL) to its settled outcome.  Completion handlers run in
dispatch order: the thumbnail first, then the body matches in document order. -/
def processMarkdownImages (dl : String → DLResult) (markdown : String)
    (mdFilename : String) (meta : Option Meta) : PMIState :=
  let ms := scanImages markdown
  let base := dropSuffixStr mdFilename ".md"
  let tOpt := meta.bind Meta.thumb
  let total := ms.length + (if tOpt.isSome then 1 else 0)
  let st0 : PMIState := ⟨markdown, [], [], [], 0, 1, meta⟩
  let st1 := match tOpt with
    | some turl => thumbStep dl total base turl st0
    | none => st0
  ms.foldl (bodyStep dl total base) st1

/-- YAML front-matter serialisation of one metadata field (line 273-274):
string values in double quotes, any other value by its rendering. -/
def serializeField (kv : String × MetaVal) : String :=
  match kv.2 with
  | .str s => kv.1 ++ ": " ++ "\"" ++ s ++ "\""
  | .other r => kv.1 ++ ": " ++ r

/-- The joined front-matter body (lines 271-276). -/
def yamlFrontMatter (m : Meta) : String :=
  String.intercalate "\n" (m.fields.map serializeField)

/-- Front-matter prefixing (line 278). -/
def withFrontMatter (m : Meta) (md : String) : String :=
  "---\n" ++ yamlFrontMatter m ++ "\n---\n\n" ++ md

/-- The function `convertHtmlToMarkdown(htmlContent, url, metadata)`: transform the HTML
(`cmc` is the absent markdown-converter module, a pure function per spec
section 4.1), prepend front matter when metadata is present, then process
images.  Also returns the process logs this function itself emits. -/
def convertHtmlToMarkdown (cmc : String → String → String) (dl : String → DLResult)
    (htmlContent url : String) (meta : Option Meta) : PMIState × List LogEntry :=
  let md0 := cmc htmlContent url
  let md1 := match meta with
    | some m => withFrontMatter m md0
    | none => md0
  let mdFilename := (match meta with | some m => m.slugOr | none => "untitled") ++ ".md"
  let r := processMarkdownImages dl md1 mdFilename meta
  (r, [⟨.info, "Starting conversion for URL: " ++ url⟩] ++
      (match meta with
       | some m => [⟨.info, "Added YAML front matter for: " ++
           (match m.getStr "slug" with | some s => s | none => "undefined")⟩]
       | none => []) ++
      [⟨.info, "Completed conversion for URL: " ++ url⟩])

/-! ## The Batch Orchestrator (`processZipContent`) -/

/-- The slug of an HTML input key: the base name (`split("/").pop()`, with the
whole key as fallback when that is empty) minus a trailing `.html`. -/
def slugOfFilename (filename : String) : String :=
  let b := (lastSegL filename.toList).asString
  let b := if b = "" then filename else b
  dropSuffixStr b ".html"

/-- Batch state: the accumulated results, the merged image object, the
failure report and the emitted process logs. -/
structure ZipState where
  results : List CResult
  allImages : List (String × List Nat)
  failures : List (String × List Failure)
  logs : List LogEntry
deriving DecidableEq, Repr

/-- The metadata-match test of the batch loop (`m.slug === slug`): true
exactly when the record's slug field is the given string. -/
def slugMatch (slug : String) (m : Meta) : Bool :=
  match m.get "slug" with
  | some (.str s) => s == slug
  | _ => false

/-- JS `articleMetadata.url` (the rendering "undefined" standing for an
absent or non-string field). -/
def Meta.urlOr (m : Meta) : String :=
  match m.getStr "url" with | some u => u | none => "undefined"

/-- One iteration of the batch loop (lines 304-342). -/
def articleStep (cmc : String → String → String) (dl : String → DLResult)
    (metadata : List Meta) (st : ZipState) (file : String × String) : ZipState :=
  let slug := slugOfFilename file.1
  let mdFilename := slug ++ ".md"
  let st : ZipState := { st with logs := st.logs ++ [⟨.info, "Processing file: " ++ mdFilename⟩] }
  match metadata.find? (slugMatch slug) with
  | none =>
    { st with logs := st.logs ++ [⟨.warning, "No metadata found for " ++ file.1⟩] }
  | some am =>
    let rc := convertHtmlToMarkdown cmc dl file.2 am.urlOr (some am)
    let r := rc.1
    let st : ZipState := { st with logs := st.logs ++ rc.2 }
    let st : ZipState :=
      if r.failures.length > 0 then
        { st with
          logs := st.logs ++ [⟨.warning, natStr r.failures.length ++
            " image download failures in " ++ mdFilename⟩]
          failures := insertJS st.failures mdFilename r.failures }
      else st
    { st with
      allImages := r.images.foldl (fun acc kv => insertJS acc kv.1 kv.2) st.allImages
      logs := st.logs ++ [⟨.info, "Successfully processed " ++ mdFilename⟩]
      results := st.results ++ [⟨mdFilename, .text r.md, false⟩] }

/-- The function `processZipContent(htmlFiles, metadata)`: iterate the HTML inputs in
order, then append one binary `ConversionResult` per accumulated image under
the `attachments/` prefix. -/
def processZipContent (cmc : String → String → String) (dl : String → DLResult)
    (htmlFiles : List (String × String)) (metadata : List Meta) : ZipState :=
  let st0 : ZipState := ⟨[], [], [],
    [⟨.info, "Starting to process " ++ natStr htmlFiles.length ++ " files"⟩]⟩
  let st := htmlFiles.foldl (articleStep cmc dl metadata) st0
  { st with
    results := st.results ++ st.allImages.map
      (fun kv => ⟨"attachments/" ++ kv.1, .bin kv.2, true⟩)
    logs := st.logs ++ [⟨.info, "Completed processing all files. Total images: " ++
      natStr st.allImages.length⟩] }

/-- Modelled from the spec: stand-in for the absent markdown-converter module
(`createMarkdownContent`), which src does not contain.  Spec section 4.1 only
constrains it to be a pure function of the HTML body and the source URL; for
concrete batches below it is instantiated as the transform that returns the
document text unchanged (adequate for inputs that are already Markdown-shaped). -/
def cmcId : String → String → String := fun html _ => html

/-! ## Generic string and list lemmas -/

theorem toList_asString (l : List Char) : l.asString.toList = l := rfl

theorem toList_inj {s t : String} (h : s.toList = t.toList) : s = t := String.ext h

theorem toList_append (s t : String) : (s ++ t).toList = s.toList ++ t.toList := by
  simpa [String.toList] using String.data_append s t

theorem takeWhile_append_sat {p : Char → Bool} {l1 : List Char} (x : Char) (l2 : List Char)
    (h : ∀ a ∈ l1, p a = true) (hx : p x = false) :
    (l1 ++ x :: l2).takeWhile p = l1 := by
  induction l1 with
  | nil => simp [List.takeWhile, hx]
  | cons c t ih =>
    have hc : p c = true := h c (by simp)
    simp only [List.cons_append, List.takeWhile_cons, hc]
    simp [ih (fun a ha => h a (by simp [ha]))]

theorem drop_append_cons {l1 : List Char} (x : Char) (l2 : List Char) :
    (l1 ++ x :: l2).drop (l1.length + 1) = l2 := by
  induction l1 with
  | nil => simp
  | cons c t ih => simpa using ih

/-! ## Decimal rendering lemmas -/

/-- Decidable decimal-digit test. -/
def isDigitB (c : Char) : Bool := '0' ≤ c && c ≤ '9'

theorem natDigits_shape (n : Nat) : ∀ c ∈ natDigits n, ∃ d, d < 10 ∧ c = digitChar d := by
  induction n using Nat.strong_induction_on with
  | _ n ih =>
    by_cases h : n < 10
    · intro c hc
      rw [natDigits_eq, if_pos h] at hc
      simp at hc
      exact ⟨n, h, hc⟩
    · intro c hc
      rw [natDigits_eq, if_neg h] at hc
      rcases List.mem_append.1 hc with h1 | h2
      · exact ih (n / 10) (Nat.div_lt_self (by omega) (by norm_num)) c h1
      · simp at h2
        exact ⟨n % 10, Nat.mod_lt _ (by norm_num), h2⟩

theorem isDigitB_digitChar {d : Nat} (h : d < 10) : isDigitB (digitChar d) = true := by
  interval_cases d <;> decide

theorem natDigits_all_digits (n : Nat) : ∀ c ∈ natDigits n, isDigitB c = true := by
  intro c hc
  rcases natDigits_shape n c hc with ⟨d, hd, rfl⟩
  exact isDigitB_digitChar hd

theorem natDigits_ne_nil (n : Nat) : natDigits n ≠ [] := by
  by_cases h : n < 10
  · rw [natDigits_eq, if_pos h]; simp
  · rw [natDigits_eq, if_neg h]; simp

/-- Numeric value of a digit character. -/
def digitVal (c : Char) : Nat := c.toNat - 48

/-- Value of a decimal digit string. -/
def parseDigits (l : List Char) : Nat := l.foldl (fun a c => 10 * a + digitVal c) 0

theorem digitVal_digitChar {d : Nat} (h : d < 10) : digitVal (digitChar d) = d := by
  interval_cases d <;> rfl

theorem parseDigits_snoc (l : List Char) (c : Char) :
    parseDigits (l ++ [c]) = 10 * parseDigits l + digitVal c := by
  simp [parseDigits, List.foldl_append]

theorem parseDigits_natDigits (n : Nat) : parseDigits (natDigits n) = n := by
  induction n using Nat.strong_induction_on with
  | _ n ih =>
    by_cases h : n < 10
    · rw [natDigits_eq, if_pos h]
      simpa [parseDigits] using digitVal_digitChar h
    · rw [natDigits_eq, if_neg h, parseDigits_snoc,
        ih (n / 10) (Nat.div_lt_self (by omega) (by norm_num)),
        digitVal_digitChar (Nat.mod_lt _ (by norm_num))]
      omega

theorem natDigits_inj {m n : Nat} (h : natDigits m = natDigits n) : m = n := by
  have := congrArg parseDigits h
  rwa [parseDigits_natDigits, parseDigits_natDigits] at this

theorem natStr_inj {m n : Nat} (h : natStr m = natStr n) : m = n :=
  natDigits_inj (by simpa [natStr, toList_asString] using congrArg String.toList h)

/-! ## Derived-filename decomposition lemmas -/

theorem dot_suffix_inj {A E B F : List Char}
    (hE : ∀ c ∈ E, (!(c == '.')) = true) (hF : ∀ c ∈ F, (!(c == '.')) = true)
    (h : A ++ '.' :: E = B ++ '.' :: F) : A = B ∧ E = F := by
  have hrev := congrArg List.reverse h
  rw [List.reverse_append, List.reverse_cons, List.reverse_append, List.reverse_cons] at hrev
  have hrev' : E.reverse ++ '.' :: A.reverse = F.reverse ++ '.' :: B.reverse := by
    simpa [List.append_assoc] using hrev
  have htw := congrArg (List.takeWhile (fun c => !(c == '.'))) hrev'
  rw [takeWhile_append_sat _ _ (fun a ha => hE a (List.mem_reverse.1 ha)) (by decide),
    takeWhile_append_sat _ _ (fun a ha => hF a (List.mem_reverse.1 ha)) (by decide)] at htw
  have hEF : E = F := by
    have := congrArg List.reverse htw
    simpa using this
  refine ⟨?_, hEF⟩
  have hlen : E.reverse.length = F.reverse.length := by rw [htw]
  have hdrop := congrArg (List.drop (E.reverse.length + 1)) hrev'
  rw [drop_append_cons, hlen, drop_append_cons] at hdrop
  have := congrArg List.reverse hdrop
  simpa using this

theorem natDigits_not_dot (i : Nat) : ∀ c ∈ natDigits i, (!(c == '.')) = true := by
  intro c hc
  rcases natDigits_shape i c hc with ⟨d, hd, rfl⟩
  interval_cases d <;> decide

theorem cleanBase_all_allowed (b : String) :
    ∀ c ∈ (cleanBase b).toList, isAllowedChar c = true := by
  intro c hc
  rw [cleanBase, toList_asString] at hc
  exact (List.mem_filter.1 hc).2

theorem cleanBase_not_dot (b : String) : ∀ c ∈ (cleanBase b).toList, (!(c == '.')) = true := by
  intro c hc
  have := cleanBase_all_allowed b c hc
  rcases c with ⟨v, hv⟩
  simp only [isAllowedChar] at this
  simp only [Bool.not_eq_true']
  by_contra hne
  rw [Bool.not_eq_false, beq_iff_eq] at hne
  rw [hne] at this
  exact absurd this (by decide)

theorem extFromUrl_mem (u : String) : extFromUrl u ∈ ("png" :: validImageExtensions) := by
  simp only [extFromUrl]
  split
  · split
    next h =>
      exact List.mem_cons_of_mem _ (List.mem_of_elem_eq_true h)
    next => exact List.mem_cons_self _ _
  · exact List.mem_cons_self _ _

theorem ext_props (u : String) :
    (extFromUrl u).toList ≠ [] ∧
    (∀ c ∈ (extFromUrl u).toList, (!(c == '.')) = true ∧ isAllowedChar c = true) ∧
    (extFromUrl u).toList ≠ ['m', 'd'] := by
  have h := extFromUrl_mem u
  simp only [validImageExtensions, List.mem_cons, List.not_mem_nil, or_false] at h
  rcases h with h | h | h | h | h | h | h <;> rw [h] <;>
    exact ⟨by decide, by decide, by decide⟩

theorem bodyFilename_toList (b : String) (i : Nat) (u : String) :
    (bodyFilename b i u).toList =
      ((cleanBase b).toList ++ '-' :: natDigits i) ++ '.' :: (extFromUrl u).toList := by
  simp [bodyFilename, toList_append, natStr, toList_asString]
  rfl

theorem thumbFilename_toList (b u : String) :
    (thumbFilename b u).toList =
      (b.toList ++ ['-', 't', 'h', 'u', 'm', 'b', 'n', 'a', 'i', 'l']) ++
        '.' :: (extFromUrl u).toList := by
  simp [thumbFilename, toList_append]

/-- Decomposing an equality of two derived body filenames: the cleaned bases,
the counters, and the extensions must each agree. -/
theorem bodyFilename_parts {b1 b2 : String} {i1 i2 : Nat} {u1 u2 : String}
    (h : bodyFilename b1 i1 u1 = bodyFilename b2 i2 u2) :
    cleanBase b1 = cleanBase b2 ∧ i1 = i2 ∧ extFromUrl u1 = extFromUrl u2 := by
  have hl := congrArg String.toList h
  rw [bodyFilename_toList, bodyFilename_toList] at hl
  rcases dot_suffix_inj (fun c hc => (ext_props u1).2.1 c hc |>.1)
    (fun c hc => (ext_props u2).2.1 c hc |>.1) hl with ⟨hA, hE⟩
  have hrev := congrArg List.reverse hA
  rw [List.reverse_append, List.reverse_cons, List.reverse_append, List.reverse_cons] at hrev
  have hrev' : (natDigits i1).reverse ++ '-' :: (cleanBase b1).toList.reverse =
      (natDigits i2).reverse ++ '-' :: (cleanBase b2).toList.reverse := by
    simpa [List.append_assoc] using hrev
  have htw := congrArg (List.takeWhile isDigitB) hrev'
  rw [takeWhile_append_sat _ _
      (fun a ha => natDigits_all_digits i1 a (List.mem_reverse.1 ha)) (by decide),
    takeWhile_append_sat _ _
      (fun a ha => natDigits_all_digits i2 a (List.mem_reverse.1 ha)) (by decide)] at htw
  have hD : natDigits i1 = natDigits i2 := by
    have := congrArg List.reverse htw
    simpa using this
  have hlen : (natDigits i1).reverse.length = (natDigits i2).reverse.length := by rw [hD]
  have hdrop := congrArg (List.drop ((natDigits i1).reverse.length + 1)) hrev'
  rw [drop_append_cons, hlen, drop_append_cons] at hdrop
  have hCB : (cleanBase b1).toList = (cleanBase b2).toList := by
    have := congrArg List.reverse hdrop
    simpa using this
  exact ⟨toList_inj hCB, natDigits_inj hD, toList_inj hE⟩

/-- A derived thumbnail filename never coincides with a derived body-image
filename, for any bases, counter and URLs. -/
theorem thumb_ne_body (tb tu b u : String) (i : Nat) :
    thumbFilename tb tu ≠ bodyFilename b i u := by
  intro h
  have hl := congrArg String.toList h
  rw [thumbFilename_toList, bodyFilename_toList] at hl
  rcases dot_suffix_inj (fun c hc => (ext_props tu).2.1 c hc |>.1)
    (fun c hc => (ext_props u).2.1 c hc |>.1) hl with ⟨hA, _⟩
  have hrev := congrArg List.reverse hA
  rw [List.reverse_append, List.reverse_append, List.reverse_cons] at hrev
  have hrevD : (natDigits i).reverse ++ '-' :: (cleanBase b).toList.reverse =
      ['l', 'i', 'a', 'n', 'b', 'm', 'u', 'h', 't', '-'] ++ tb.toList.reverse := by
    simpa [List.append_assoc] using hrev.symm
  rcases hD : (natDigits i).reverse with _ | ⟨c, D⟩
  · exact absurd (by simpa using congrArg List.reverse hD) (natDigits_ne_nil i)
  · rw [hD] at hrevD
    have hc : c = 'l' := by
      have := congrArg (fun l => l.headD ' ') hrevD
      simpa using this
    have : isDigitB c = true :=
      natDigits_all_digits i c (List.mem_reverse.1 (by rw [hD]; simp))
    rw [hc] at this
    exact absurd this (by decide)

/-- A Markdown result filename (anything ending in `.md`) never coincides
with a filename ending in a dot followed by a derived image extension. -/
theorem mdname_ne_dotext {s : String} {A : List Char} {u : String}
    (h : s.toList ++ ['.', 'm', 'd'] = A ++ '.' :: (extFromUrl u).toList) : False := by
  rcases dot_suffix_inj (by decide) (fun c hc => (ext_props u).2.1 c hc |>.1) h with ⟨_, hE⟩
  exact (ext_props u).2.2 hE.symm

theorem append_left_cancel_str {p a b : String} (h : p ++ a = p ++ b) : a = b := by
  have := congrArg String.toList h
  rw [toList_append, toList_append] at this
  exact toList_inj (List.append_cancel_left this)

theorem append_right_cancel_str {a b s : String} (h : a ++ s = b ++ s) : a = b := by
  have := congrArg String.toList h
  rw [toList_append, toList_append] at this
  exact toList_inj (List.append_cancel_right this)

/-! ## JS-object (`insertJS`) lemmas -/

/-- The ordered key list of a string-keyed JS object. -/
def keysOf {β : Type} (m : List (String × β)) : List String := m.map (·.1)

theorem any_key_iff {β : Type} (m : List (String × β)) (k : String) :
    (m.any (fun kv => kv.1 == k)) = true ↔ k ∈ keysOf m := by
  simp only [List.any_eq_true, keysOf, List.mem_map, beq_iff_eq]

theorem keysOf_insertJS {β : Type} (m : List (String × β)) (k : String) (v : β) :
    keysOf (insertJS m k v) = if k ∈ keysOf m then keysOf m else keysOf m ++ [k] := by
  unfold insertJS
  by_cases hm : (m.any (fun kv => kv.1 == k)) = true
  · rw [if_pos hm, if_pos ((any_key_iff m k).1 hm)]
    simp only [keysOf, List.map_map]
    apply List.map_congr_left
    intro kv _
    by_cases hk : kv.1 = k <;> simp [hk]
  · rw [if_neg hm, if_neg (fun hmem => hm ((any_key_iff m k).2 hmem))]
    simp [keysOf]

theorem nodup_keysOf_insertJS {β : Type} {m : List (String × β)} {k : String} {v : β}
    (h : (keysOf m).Nodup) : (keysOf (insertJS m k v)).Nodup := by
  rw [keysOf_insertJS]
  split
  · exact h
  · next hk =>
    rw [List.nodup_append]
    exact ⟨h, by simp, by intro a ha hmem; simp at hmem; subst hmem; exact hk ha⟩

theorem mem_keysOf_insertJS {β : Type} {m : List (String × β)} {k k' : String} {v : β} :
    k' ∈ keysOf (insertJS m k v) ↔ k' ∈ keysOf m ∨ k' = k := by
  rw [keysOf_insertJS]
  split
  · next hk =>
    constructor
    · exact Or.inl
    · rintro (h | rfl)
      · exact h
      · exact hk
  · simp

theorem keysOf_foldl_insertJS_nodup {β : Type} (items : List (String × β)) :
    ∀ (m : List (String × β)), (keysOf m).Nodup →
      (keysOf (items.foldl (fun acc kv => insertJS acc kv.1 kv.2) m)).Nodup := by
  induction items with
  | nil => intro m h; exact h
  | cons kv t ih => intro m h; exact ih _ (nodup_keysOf_insertJS h)

theorem mem_keysOf_foldl_insertJS {β : Type} (items : List (String × β)) :
    ∀ (m : List (String × β)) (k : String),
      (k ∈ keysOf m ∨ k ∈ keysOf items) →
      k ∈ keysOf (items.foldl (fun acc kv => insertJS acc kv.1 kv.2) m) := by
  induction items with
  | nil => intro m k h; simpa [keysOf] using h
  | cons kv t ih =>
    intro m k h
    refine ih _ k ?_
    rcases h with h | h
    · exact Or.inl (mem_keysOf_insertJS.2 (Or.inl h))
    · rcases (by simpa [keysOf] using h : k = kv.1 ∨ k ∈ keysOf t) with rfl | h'
      · exact Or.inl (mem_keysOf_insertJS.2 (Or.inr rfl))
      · exact Or.inr h'

/-! ## Fold specification of the body-image loop -/

/-- The Markdown text after the body-image completion handlers, starting from
a given text and counter value. -/
def bodyMd (dl : String → DLResult) (base : String) : String → Nat → List String → String
  | md, _, [] => md
  | md, c, u :: t =>
    match dl (stripQuery u) with
    | .success _ =>
      bodyMd dl base
        (replaceFirst md u ("./attachments/" ++ bodyFilename base c (stripQuery u))) (c + 1) t
    | _ => bodyMd dl base md (c + 1) t

/-- The images object after the body-image completion handlers. -/
def bodyImages (dl : String → DLResult) (base : String) :
    List (String × List Nat) → Nat → List String → List (String × List Nat)
  | imgs, _, [] => imgs
  | imgs, c, u :: t =>
    match dl (stripQuery u) with
    | .success d =>
      bodyImages dl base (insertJS imgs (bodyFilename base c (stripQuery u)) d) (c + 1) t
    | _ => bodyImages dl base imgs (c + 1) t

/-- The failure records appended by the body-image completion handlers. -/
def bodyFails (dl : String → DLResult) (base : String) : Nat → List String → List Failure
  | _, [] => []
  | c, u :: t =>
    (match dl (stripQuery u) with
     | .success _ => []
     | .nullResult => [⟨stripQuery u, bodyFilename base c (stripQuery u), "Download failed"⟩]
     | .thrown msg => [⟨stripQuery u, bodyFilename base c (stripQuery u), msg⟩]) ++
      bodyFails dl base (c + 1) t

/-- The progress events emitted by the body-image completion handlers. -/
def bodyEvents (dl : String → DLResult) (total : Nat) : Nat → List String → List PEvent
  | _, [] => []
  | comp, u :: t =>
    (match dl (stripQuery u) with
     | .thrown _ => []
     | _ => [⟨(((comp + 1 : Nat) : ℚ) / ((total : Nat) : ℚ)) * 100, stripQuery u⟩]) ++
      bodyEvents dl total (comp + 1) t

theorem foldl_bodyStep_spec (dl : String → DLResult) (total : Nat) (base : String) :
    ∀ (ms : List String) (st : PMIState),
      ms.foldl (bodyStep dl total base) st =
        { md := bodyMd dl base st.md st.counter ms,
          images := bodyImages dl base st.images st.counter ms,
          failures := st.failures ++ bodyFails dl base st.counter ms,
          events := st.events ++ bodyEvents dl total st.completed ms,
          completed := st.completed + ms.length,
          counter := st.counter + ms.length,
          meta := st.meta } := by
  intro ms
  induction ms with
  | nil => intro st; simp [bodyMd, bodyImages, bodyFails, bodyEvents]
  | cons u t ih =>
    intro st
    rw [List.foldl_cons, ih]
    rcases hdl : dl (stripQuery u) with d | _ | msg <;>
      simp [bodyStep, hdl, bodyMd, bodyImages, bodyFails, bodyEvents, List.append_assoc] <;>
      omega

/-! ## Full specification of `processMarkdownImages` -/

/-- Images contributed by the thumbnail handler. -/
def thumbPartImages (dl : String → DLResult) (base : String) :
    Option String → List (String × List Nat)
  | none => []
  | some turl =>
    match dl turl with
    | .success d => [(thumbFilename base turl, d)]
    | _ => []

/-- Failure records contributed by the thumbnail handler. -/
def thumbPartFails (dl : String → DLResult) (base : String) : Option String → List Failure
  | none => []
  | some turl =>
    match dl turl with
    | .success _ => []
    | .nullResult => [⟨turl, thumbFilename base turl, "Download failed"⟩]
    | .thrown msg => [⟨turl, thumbFilename base turl, msg⟩]

/-- Progress events contributed by the thumbnail handler. -/
def thumbPartEvents (dl : String → DLResult) (total : Nat) : Option String → List PEvent
  | none => []
  | some turl =>
    match dl turl with
    | .thrown _ => []
    | _ => [⟨((1 : ℚ) / ((total : Nat) : ℚ)) * 100, turl⟩]

/-- The metadata object after the thumbnail handler. -/
def thumbPartMeta (dl : String → DLResult) (base : String) (meta : Option Meta) :
    Option String → Option Meta
  | none => meta
  | some turl =>
    match dl turl with
    | .success _ =>
      meta.map (fun m =>
        m.setField "thumbnail" (.str ("./attachments/" ++ thumbFilename base turl)))
    | _ => meta

/-- One when a truthy thumbnail is present, zero otherwise. -/
def thumbCount : Option String → Nat
  | none => 0
  | some _ => 1

theorem processMarkdownImages_spec (dl : String → DLResult) (markdown mdFilename : String)
    (meta : Option Meta) :
    processMarkdownImages dl markdown mdFilename meta =
      { md := bodyMd dl (dropSuffixStr mdFilename ".md") markdown 1 (scanImages markdown),
        images := bodyImages dl (dropSuffixStr mdFilename ".md")
          (thumbPartImages dl (dropSuffixStr mdFilename ".md") (meta.bind Meta.thumb)) 1
          (scanImages markdown),
        failures := thumbPartFails dl (dropSuffixStr mdFilename ".md") (meta.bind Meta.thumb) ++
          bodyFails dl (dropSuffixStr mdFilename ".md") 1 (scanImages markdown),
        events := thumbPartEvents dl
            ((scanImages markdown).length + thumbCount (meta.bind Meta.thumb))
            (meta.bind Meta.thumb) ++
          bodyEvents dl ((scanImages markdown).length + thumbCount (meta.bind Meta.thumb))
            (thumbCount (meta.bind Meta.thumb)) (scanImages markdown),
        completed := thumbCount (meta.bind Meta.thumb) + (scanImages markdown).length,
        counter := 1 + (scanImages markdown).length,
        meta := thumbPartMeta dl (dropSuffixStr mdFilename ".md") meta
          (meta.bind Meta.thumb) } := by
  unfold processMarkdownImages
  rcases ht : meta.bind Meta.thumb with _ | turl
  · rw [foldl_bodyStep_spec]
    simp [thumbPartImages, thumbPartFails, thumbPartEvents, thumbPartMeta, thumbCount,
      Nat.add_comm]
  · rw [foldl_bodyStep_spec]
    have hnil : ∀ (k : String) (v : List Nat), insertJS [] k v = [(k, v)] := fun _ _ => rfl
    rcases hdl : dl turl with d | _ | msg <;>
      simp [thumbStep, hdl, hnil, thumbPartImages, thumbPartFails, thumbPartEvents,
        thumbPartMeta, thumbCount, Nat.add_comm]

/-! ## Per-article components of the batch loop -/

/-- The Markdown `ConversionResult`s one batch iteration appends (none for a
skipped article, one for a matched one). -/
def articleMdRes (cmc : String → String → String) (dl : String → DLResult)
    (metadata : List Meta) (f : String × String) : List CResult :=
  match metadata.find? (slugMatch (slugOfFilename f.1)) with
  | none => []
  | some am => [⟨slugOfFilename f.1 ++ ".md",
      .text (convertHtmlToMarkdown cmc dl f.2 am.urlOr (some am)).1.md, false⟩]

/-- The images one batch iteration merges into the global object. -/
def articleImgs (cmc : String → String → String) (dl : String → DLResult)
    (metadata : List Meta) (f : String × String) : List (String × List Nat) :=
  match metadata.find? (slugMatch (slugOfFilename f.1)) with
  | none => []
  | some am => (convertHtmlToMarkdown cmc dl f.2 am.urlOr (some am)).1.images

/-- The failure-report update one batch iteration performs. -/
def articleFailUpd (cmc : String → String → String) (dl : String → DLResult)
    (metadata : List Meta) (f : String × String) (fails : List (String × List Failure)) :
    List (String × List Failure) :=
  match metadata.find? (slugMatch (slugOfFilename f.1)) with
  | none => fails
  | some am =>
    let r := (convertHtmlToMarkdown cmc dl f.2 am.urlOr (some am)).1
    if r.failures.length > 0 then insertJS fails (slugOfFilename f.1 ++ ".md") r.failures
    else fails

theorem articleStep_components (cmc : String → String → String) (dl : String → DLResult)
    (metadata : List Meta) (st : ZipState) (f : String × String) :
    (articleStep cmc dl metadata st f).results = st.results ++ articleMdRes cmc dl metadata f ∧
    (articleStep cmc dl metadata st f).allImages =
      (articleImgs cmc dl metadata f).foldl (fun acc kv => insertJS acc kv.1 kv.2) st.allImages ∧
    (articleStep cmc dl metadata st f).failures = articleFailUpd cmc dl metadata f st.failures ∧
    ∃ L, (articleStep cmc dl metadata st f).logs = st.logs ++ L ∧
      (metadata.find? (slugMatch (slugOfFilename f.1)) = none →
        (⟨.warning, "No metadata found for " ++ f.1⟩ : LogEntry) ∈ L) := by
  unfold articleStep
  rcases hf : metadata.find? (slugMatch (slugOfFilename f.1)) with _ | am
  · refine ⟨by simp [articleMdRes, hf], by simp [articleImgs, hf], by simp [articleFailUpd, hf], ?_⟩
    refine ⟨[⟨.info, "Processing file: " ++ (slugOfFilename f.1 ++ ".md")⟩,
      ⟨.warning, "No metadata found for " ++ f.1⟩], by simp [hf], by simp⟩
  · refine ⟨by simp [articleMdRes, hf, apply_ite ZipState.results],
      by simp [articleImgs, hf, apply_ite ZipState.allImages],
      by simp [articleFailUpd, hf, apply_ite ZipState.failures], ?_⟩
    refine ⟨[⟨.info, "Processing file: " ++ (slugOfFilename f.1 ++ ".md")⟩] ++
      (convertHtmlToMarkdown cmc dl f.2 am.urlOr (some am)).2 ++
      (if 0 < (convertHtmlToMarkdown cmc dl f.2 am.urlOr (some am)).1.failures.length then
        [⟨.warning, natStr (convertHtmlToMarkdown cmc dl f.2 am.urlOr (some am)).1.failures.length
          ++ " image download failures in " ++ (slugOfFilename f.1 ++ ".md")⟩]
       else []) ++
      [⟨.info, "Successfully processed " ++ (slugOfFilename f.1 ++ ".md")⟩], ?_, ?_⟩
    · simp only [hf, apply_ite ZipState.logs]
      split <;> simp [List.append_assoc]
    · intro hcontra
      cases hcontra

/-! ## Batch-fold lemmas -/

theorem mem_keysOf_foldl_insertJS_inv {β : Type} (items : List (String × β)) :
    ∀ (m : List (String × β)) (k : String),
      k ∈ keysOf (items.foldl (fun acc kv => insertJS acc kv.1 kv.2) m) →
      k ∈ keysOf m ∨ k ∈ keysOf items := by
  induction items with
  | nil => intro m k h; exact Or.inl h
  | cons kv t ih =>
    intro m k h
    rcases ih _ k h with h' | h'
    · rcases mem_keysOf_insertJS.1 h' with h'' | rfl
      · exact Or.inl h''
      · exact Or.inr (by simp [keysOf])
    · exact Or.inr (by simp [keysOf]; right; simpa [keysOf] using h')

/-- Markdown results appended across a whole batch, in order. -/
def batchMdResults (cmc : String → String → String) (dl : String → DLResult)
    (metadata : List Meta) : List (String × String) → List CResult
  | [] => []
  | f :: t => articleMdRes cmc dl metadata f ++ batchMdResults cmc dl metadata t

theorem foldl_articleStep_results (cmc : String → String → String) (dl : String → DLResult)
    (metadata : List Meta) :
    ∀ (files : List (String × String)) (st : ZipState),
      (files.foldl (articleStep cmc dl metadata) st).results =
        st.results ++ batchMdResults cmc dl metadata files := by
  intro files
  induction files with
  | nil => intro st; simp [batchMdResults]
  | cons f t ih =>
    intro st
    rw [List.foldl_cons, ih, (articleStep_components cmc dl metadata st f).1]
    simp [batchMdResults, List.append_assoc]

theorem foldl_articleStep_allImages_nodup (cmc : String → String → String)
    (dl : String → DLResult) (metadata : List Meta) :
    ∀ (files : List (String × String)) (st : ZipState),
      (keysOf st.allImages).Nodup →
      (keysOf ((files.foldl (articleStep cmc dl metadata) st)).allImages).Nodup := by
  intro files
  induction files with
  | nil => intro st h; exact h
  | cons f t ih =>
    intro st h
    rw [List.foldl_cons]
    refine ih _ ?_
    rw [(articleStep_components cmc dl metadata st f).2.1]
    exact keysOf_foldl_insertJS_nodup _ _ h

theorem foldl_articleStep_allImages_mem (cmc : String → String → String)
    (dl : String → DLResult) (metadata : List Meta) :
    ∀ (files : List (String × String)) (st : ZipState) (k : String),
      k ∈ keysOf ((files.foldl (articleStep cmc dl metadata) st)).allImages →
      k ∈ keysOf st.allImages ∨
        ∃ f ∈ files, k ∈ keysOf (articleImgs cmc dl metadata f) := by
  intro files
  induction files with
  | nil => intro st k h; exact Or.inl h
  | cons f t ih =>
    intro st k h
    rw [List.foldl_cons] at h
    rcases ih _ k h with h' | ⟨g, hg, hk⟩
    · rw [(articleStep_components cmc dl metadata st f).2.1] at h'
      rcases mem_keysOf_foldl_insertJS_inv _ _ _ h' with h'' | h''
      · exact Or.inl h''
      · exact Or.inr ⟨f, by simp, h''⟩
    · exact Or.inr ⟨g, by simp [hg], hk⟩

theorem foldl_articleStep_logs_mono (cmc : String → String → String)
    (dl : String → DLResult) (metadata : List Meta) :
    ∀ (files : List (String × String)) (st : ZipState) (e : LogEntry),
      e ∈ st.logs → e ∈ ((files.foldl (articleStep cmc dl metadata) st)).logs := by
  intro files
  induction files with
  | nil => intro st e h; exact h
  | cons f t ih =>
    intro st e h
    rw [List.foldl_cons]
    refine ih _ e ?_
    rcases (articleStep_components cmc dl metadata st f).2.2.2 with ⟨L, hL, _⟩
    rw [hL]
    exact List.mem_append_left _ h

theorem foldl_articleStep_warning (cmc : String → String → String)
    (dl : String → DLResult) (metadata : List Meta) :
    ∀ (files : List (String × String)) (st : ZipState) (f : String × String),
      f ∈ files → metadata.find? (slugMatch (slugOfFilename f.1)) = none →
      (⟨.warning, "No metadata found for " ++ f.1⟩ : LogEntry) ∈
        ((files.foldl (articleStep cmc dl metadata) st)).logs := by
  intro files
  induction files with
  | nil => intro st f h; cases h
  | cons g t ih =>
    intro st f hf hnone
    rw [List.foldl_cons]
    rcases List.mem_cons.1 hf with rfl | hmem
    · refine foldl_articleStep_logs_mono cmc dl metadata t _ _ ?_
      rcases (articleStep_components cmc dl metadata st f).2.2.2 with ⟨L, hL, hw⟩
      rw [hL]
      exact List.mem_append_right _ (hw hnone)
    · exact ih _ f hmem hnone

theorem foldl_articleStep_pi_congr (cmc : String → String → String)
    (dl : String → DLResult) (metadata : List Meta) :
    ∀ (files : List (String × String)) (st st' : ZipState),
      st.results = st'.results → st.allImages = st'.allImages → st.failures = st'.failures →
      ((files.foldl (articleStep cmc dl metadata) st)).results =
          ((files.foldl (articleStep cmc dl metadata) st')).results ∧
        ((files.foldl (articleStep cmc dl metadata) st)).allImages =
          ((files.foldl (articleStep cmc dl metadata) st')).allImages ∧
        ((files.foldl (articleStep cmc dl metadata) st)).failures =
          ((files.foldl (articleStep cmc dl metadata) st')).failures := by
  intro files
  induction files with
  | nil => intro st st' h1 h2 h3; exact ⟨h1, h2, h3⟩
  | cons f t ih =>
    intro st st' h1 h2 h3
    rw [List.foldl_cons, List.foldl_cons]
    refine ih _ _ ?_ ?_ ?_
    · rw [(articleStep_components cmc dl metadata st f).1,
        (articleStep_components cmc dl metadata st' f).1, h1]
    · rw [(articleStep_components cmc dl metadata st f).2.1,
        (articleStep_components cmc dl metadata st' f).2.1, h2]
    · rw [(articleStep_components cmc dl metadata st f).2.2.1,
        (articleStep_components cmc dl metadata st' f).2.2.1, h3]

/-- A batch input is kept exactly when some metadata record matches its slug. -/
def hasMeta (metadata : List Meta) (f : String × String) : Bool :=
  (metadata.find? (slugMatch (slugOfFilename f.1))).isSome

theorem foldl_articleStep_filter (cmc : String → String → String)
    (dl : String → DLResult) (metadata : List Meta) :
    ∀ (files : List (String × String)) (st : ZipState),
      ((files.foldl (articleStep cmc dl metadata) st)).results =
          (((files.filter (hasMeta metadata)).foldl (articleStep cmc dl metadata) st)).results ∧
        ((files.foldl (articleStep cmc dl metadata) st)).allImages =
          (((files.filter (hasMeta metadata)).foldl (articleStep cmc dl metadata) st)).allImages ∧
        ((files.foldl (articleStep cmc dl metadata) st)).failures =
          (((files.filter (hasMeta metadata)).foldl (articleStep cmc dl metadata) st)).failures := by
  intro files
  induction files with
  | nil => intro st; exact ⟨rfl, rfl, rfl⟩
  | cons f t ih =>
    intro st
    by_cases hm : hasMeta metadata f = true
    · rw [List.foldl_cons, List.filter_cons_of_pos hm, List.foldl_cons]
      exact ih _
    · rw [List.foldl_cons, List.filter_cons_of_neg (by simpa using hm)]
      have hnone : metadata.find? (slugMatch (slugOfFilename f.1)) = none := by
        rcases hfind : metadata.find? (slugMatch (slugOfFilename f.1)) with _ | am
        · rfl
        · exact absurd (by simp [hasMeta, hfind]) hm
      have hc := articleStep_components cmc dl metadata st f
      have h1 : (articleStep cmc dl metadata st f).results = st.results := by
        rw [hc.1]; simp [articleMdRes, hnone]
      have h2 : (articleStep cmc dl metadata st f).allImages = st.allImages := by
        rw [hc.2.1]; simp [articleImgs, hnone]
      have h3 : (articleStep cmc dl metadata st f).failures = st.failures := by
        rw [hc.2.2.1]; simp [articleFailUpd, hnone]
      rcases foldl_articleStep_pi_congr cmc dl metadata t _ _ h1 h2 h3 with ⟨g1, g2, g3⟩
      rcases ih st with ⟨i1, i2, i3⟩
      exact ⟨g1.trans i1, g2.trans i2, g3.trans i3⟩

/-! ## Shapes of derived image filenames in the batch -/

theorem batchMdResults_filenames (cmc : String → String → String) (dl : String → DLResult)
    (metadata : List Meta) :
    ∀ (files : List (String × String)),
      (batchMdResults cmc dl metadata files).map (·.filename) =
        (files.filter (hasMeta metadata)).map (fun f => slugOfFilename f.1 ++ ".md") := by
  intro files
  induction files with
  | nil => simp [batchMdResults]
  | cons f t ih =>
    rcases hf : metadata.find? (slugMatch (slugOfFilename f.1)) with _ | am
    · rw [batchMdResults, List.filter_cons_of_neg (by simp [hasMeta, hf])]
      simpa [articleMdRes, hf] using ih
    · rw [batchMdResults, List.filter_cons_of_pos (by simp [hasMeta, hf])]
      simpa [articleMdRes, hf] using ih

theorem batchMdResults_binary (cmc : String → String → String) (dl : String → DLResult)
    (metadata : List Meta) :
    ∀ (files : List (String × String)) (r : CResult),
      r ∈ batchMdResults cmc dl metadata files → r.binary = false := by
  intro files
  induction files with
  | nil => intro r h; cases h
  | cons f t ih =>
    intro r h
    rw [batchMdResults] at h
    rcases List.mem_append.1 h with h' | h'
    · rcases hf : metadata.find? (slugMatch (slugOfFilename f.1)) with _ | am <;>
        rw [articleMdRes, hf] at h'
      · cases h'
      · simp at h'
        rw [h']
    · exact ih r h'

theorem keys_bodyImages (dl : String → DLResult) (base : String) :
    ∀ (ms : List String) (imgs : List (String × List Nat)) (c : Nat) (k : String),
      k ∈ keysOf (bodyImages dl base imgs c ms) →
      k ∈ keysOf imgs ∨ ∃ j u, k = bodyFilename base j u := by
  intro ms
  induction ms with
  | nil => intro imgs c k h; exact Or.inl h
  | cons u t ih =>
    intro imgs c k h
    rw [bodyImages] at h
    rcases hdl : dl (stripQuery u) with d | _ | m <;> rw [hdl] at h
    · rcases ih _ _ _ h with h' | h'
      · rcases mem_keysOf_insertJS.1 h' with h'' | rfl
        · exact Or.inl h''
        · exact Or.inr ⟨c, stripQuery u, rfl⟩
      · exact Or.inr h'
    · exact ih _ _ _ h
    · exact ih _ _ _ h

theorem keys_thumbPartImages (dl : String → DLResult) (base : String)
    (tOpt : Option String) (k : String) :
    k ∈ keysOf (thumbPartImages dl base tOpt) → ∃ turl, k = thumbFilename base turl := by
  rcases tOpt with _ | turl
  · intro h; cases h
  · rcases hdl : dl turl with d | _ | m <;> simp [thumbPartImages, hdl, keysOf]
    intro h; exact ⟨turl, h⟩

/-- A filename ending in a dot followed by a derived image extension. -/
def hasExtShape (k : String) : Prop :=
  ∃ A u, k.toList = A ++ '.' :: (extFromUrl u).toList

theorem bodyFilename_shape (b : String) (i : Nat) (u : String) :
    hasExtShape (bodyFilename b i u) :=
  ⟨_, u, bodyFilename_toList b i u⟩

theorem thumbFilename_shape (b u : String) : hasExtShape (thumbFilename b u) :=
  ⟨_, u, thumbFilename_toList b u⟩

theorem convertHtmlToMarkdown_fst (cmc : String → String → String) (dl : String → DLResult)
    (h u : String) (meta : Option Meta) :
    (convertHtmlToMarkdown cmc dl h u meta).1 =
      processMarkdownImages dl
        (match meta with | some m => withFrontMatter m (cmc h u) | none => cmc h u)
        ((match meta with | some m => m.slugOr | none => "untitled") ++ ".md") meta := rfl

theorem articleImgs_shape (cmc : String → String → String) (dl : String → DLResult)
    (metadata : List Meta) (f : String × String) (k : String)
    (h : k ∈ keysOf (articleImgs cmc dl metadata f)) : hasExtShape k := by
  rw [articleImgs] at h
  rcases hf : metadata.find? (slugMatch (slugOfFilename f.1)) with _ | am <;> rw [hf] at h
  · cases h
  · dsimp only at h
    rw [convertHtmlToMarkdown_fst, processMarkdownImages_spec] at h
    simp only at h
    rcases keys_bodyImages _ _ _ _ _ _ h with h' | ⟨j, u, rfl⟩
    · rcases keys_thumbPartImages _ _ _ _ h' with ⟨turl, rfl⟩
      exact thumbFilename_shape _ _
    · exact bodyFilename_shape _ _ _

theorem mdname_ne_attach {slug n : String} (h : hasExtShape n) :
    slug ++ ".md" ≠ "attachments/" ++ n := by
  intro he
  rcases h with ⟨A, u, hA⟩
  have hmd : (".md" : String).toList = ['.', 'm', 'd'] := rfl
  have hthis := congrArg String.toList he
  rw [toList_append, toList_append, hA, hmd] at hthis
  have h2 : slug.toList ++ ['.', 'm', 'd'] =
      ('a' :: 't' :: 't' :: 'a' :: 'c' :: 'h' :: 'm' :: 'e' :: 'n' :: 't' :: 's' :: '/' :: A) ++
        '.' :: (extFromUrl u).toList := by
    simpa using hthis
  exact mdname_ne_dotext h2

/-! ## Markdown-invariance and progress-event lemmas -/

theorem bodyMd_no_success (dl : String → DLResult) (base : String) :
    ∀ (ms : List String) (md : String) (c : Nat),
      (∀ u ∈ ms, ∀ d, dl (stripQuery u) ≠ .success d) →
      bodyMd dl base md c ms = md := by
  intro ms
  induction ms with
  | nil => intro md c _; rfl
  | cons u t ih =>
    intro md c h
    rw [bodyMd]
    rcases hdl : dl (stripQuery u) with d | _ | m
    · exact absurd hdl (h u (by simp) d)
    · exact ih md (c + 1) (fun v hv => h v (by simp [hv]))
    · exact ih md (c + 1) (fun v hv => h v (by simp [hv]))

/-- Is a settled `downloadImage` outcome a rejection? -/
def isThrownB : DLResult → Bool
  | .thrown _ => true
  | _ => false

theorem bodyEvents_length (dl : String → DLResult) (total : Nat) :
    ∀ (ms : List String) (comp : Nat),
      (bodyEvents dl total comp ms).length =
        ms.countP (fun u => !(isThrownB (dl (stripQuery u)))) := by
  intro ms
  induction ms with
  | nil => intro comp; rfl
  | cons u t ih =>
    intro comp
    rw [bodyEvents, List.countP_cons]
    rcases hdl : dl (stripQuery u) with d | _ | m <;>
      simp [hdl, isThrownB, ih (comp + 1)]

theorem bodyEvents_progress (dl : String → DLResult) (total : Nat) :
    ∀ (ms : List String) (comp : Nat),
      (∀ u ∈ ms, ∀ m, dl (stripQuery u) ≠ .thrown m) →
      (bodyEvents dl total comp ms).map (·.progress) =
        (List.range ms.length).map
          (fun k => (((comp + k + 1 : Nat) : ℚ) / ((total : Nat) : ℚ)) * 100) := by
  intro ms
  induction ms with
  | nil => intro comp _; rfl
  | cons u t ih =>
    intro comp h
    rw [bodyEvents, List.length_cons, List.range_succ_eq_map]
    rcases hdl : dl (stripQuery u) with d | _ | m
    case cons.thrown => exact absurd hdl (h u (by simp) m)
    all_goals {
      simp only [List.singleton_append, List.map_cons, List.map_map,
        ih (comp + 1) (fun v hv => h v (by simp [hv]))]
      refine congrArg₂ _ (by push_cast; ring_nf) ?_
      apply List.map_congr_left
      intro k _
      simp only [Function.comp]
      push_cast
      ring_nf
    }

/-! ## Attempt-list specification of the Image Acquirer

`specAttempts` and `specAttemptUrls` restate, in the spec's own vocabulary,
which network attempts one `downloadImage` call performs and against which
URL: for a proxy URL, the proxy fetch, then (when the proxy fetch did not
succeed and an embedded original URL can be extracted and decoded) the
original URL, then the direct fetch of the given URL; for a non-proxy URL,
only the direct fetch; a success or a decoding failure stops the sequence. -/

/-- Did a fetch attempt return an HTTP-success response? -/
def isOkB : FetchOutcome → Bool
  | .ok _ => true
  | _ => false

/-- Did a fetch attempt settle in a non-success response without throwing? -/
def isNotOkB : FetchOutcome → Bool
  | .notOk => true
  | _ => false

/-- Did a fetch attempt resolve with an HTTP-success status (whether or not
its body read then succeeded)?  Exactly these attempts pass the
`response.ok` test and emit the info log. -/
def hasOkStatusB : FetchOutcome → Bool
  | .ok _ => true
  | .okErr => true
  | _ => false

/-- How many process-log entries one performed attempt emits: the info log
for an HTTP-success status, the catch's warning/error log for a throw —
an ok-status attempt whose body read rejects emits both. -/
def attemptLogCount : FetchOutcome → Nat
  | .ok _ => 1
  | .notOk => 0
  | .err => 1
  | .okErr => 2

/-- The outcomes of the performed attempts, in order. -/
def specAttempts (fetch : Nat → String → FetchOutcome) (dec : String → Option String)
    (url : String) : List FetchOutcome :=
  if containsSub url proxyMarker then
    match fetch 0 url with
    | .ok d => [.ok d]
    | a0 =>
      match extractOriginal url.toList with
      | some cap =>
        match dec cap.asString with
        | none => [a0]
        | some orig =>
          match fetch 1 orig with
          | .ok d => [a0, .ok d]
          | a1 => [a0, a1, fetch 2 url]
      | none => [a0, fetch 1 url]
  else [fetch 0 url]

/-- The URL each performed attempt targeted, in order. -/
def specAttemptUrls (fetch : Nat → String → FetchOutcome) (dec : String → Option String)
    (url : String) : List String :=
  if containsSub url proxyMarker then
    match fetch 0 url with
    | .ok _ => [url]
    | _ =>
      match extractOriginal url.toList with
      | some cap =>
        match dec cap.asString with
        | none => [url]
        | some orig =>
          match fetch 1 orig with
          | .ok _ => [url, orig]
          | _ => [url, orig, url]
      | none => [url, url]
  else [url]

/-- The rejection condition: a proxy URL whose proxy attempt did not succeed
and whose embedded original URL fails decoding. -/
def dlThrowCondB (fetch : Nat → String → FetchOutcome) (dec : String → Option String)
    (url : String) : Bool :=
  containsSub url proxyMarker && !(isOkB (fetch 0 url)) &&
    (match extractOriginal url.toList with
     | some cap => (dec cap.asString).isNone
     | none => false)

/-- The data of the first HTTP-success attempt, if any. -/
def firstOk : List FetchOutcome → Option (List Nat)
  | [] => none
  | .ok d :: _ => some d
  | _ :: t => firstOk t

theorem downloadImage_res_spec (fetch : Nat → String → FetchOutcome)
    (dec : String → Option String) (url : String) :
    (downloadImage fetch dec url).res =
      if dlThrowCondB fetch dec url then .thrown "URI malformed"
      else
        match firstOk (specAttempts fetch dec url) with
        | some d => .success d
        | none => .nullResult := by
  unfold downloadImage dlThrowCondB specAttempts
  by_cases hp : containsSub url proxyMarker <;> simp only [hp]
  · rcases h0 : fetch 0 url with d | _ | _ | _
    · simp [isOkB, firstOk]
    all_goals {
      rcases he : extractOriginal url.toList with _ | cap
      · rcases h1 : fetch 1 url with d1 | _ | _ | _ <;>
          simp [isOkB, firstOk, directAttempt, h1]
      · rcases hd : dec cap.asString with _ | orig
        · simp [isOkB, firstOk, hd]
        · rcases h1 : fetch 1 orig with d1 | _ | _ | _
          · simp [isOkB, firstOk, hd, h1]
          all_goals {
            rcases h2 : fetch 2 url with d2 | _ | _ | _ <;>
              simp [isOkB, firstOk, directAttempt, hd, h1, h2]
          }
    }
  · rcases h0 : fetch 0 url with d | _ | _ | _ <;>
      simp [isOkB, firstOk, directAttempt, h0, Bool.false_and]

theorem containsSubL_append_self (u : List Char) :
    ∀ (l : List Char), containsSubL u (l ++ u) = true := by
  intro l
  induction l with
  | nil =>
    rcases u with _ | ⟨c, t⟩
    · rfl
    · simp [containsSubL, List.isPrefixOf_iff_prefix]
  | cons c t ih =>
    simp [containsSubL, ih]

theorem containsSub_append_right (p u : String) : containsSub (p ++ u) u = true := by
  rw [containsSub, toList_append]
  exact containsSubL_append_self _ _

theorem downloadImage_logs_facts (fetch : Nat → String → FetchOutcome)
    (dec : String → Option String) (url : String) :
    (downloadImage fetch dec url).logs.length =
        ((specAttempts fetch dec url).map attemptLogCount).sum ∧
      (downloadImage fetch dec url).logs.countP (fun e => e.type == LogType.info) =
        (specAttempts fetch dec url).countP hasOkStatusB ∧
      ∀ e ∈ (downloadImage fetch dec url).logs,
        ∃ u' ∈ specAttemptUrls fetch dec url, containsSub e.message u' = true := by
  unfold downloadImage specAttempts specAttemptUrls
  by_cases hp : containsSub url proxyMarker <;> simp only [hp]
  · rcases h0 : fetch 0 url with d | _ | _ | _
    · refine ⟨by simp [attemptLogCount], by simp [hasOkStatusB], ?_⟩
      intro e hmem
      simp at hmem
      subst hmem
      exact ⟨url, by simp, containsSub_append_right _ _⟩
    all_goals {
      rcases he : extractOriginal url.toList with _ | cap
      · rcases h1 : fetch 1 url with d1 | _ | _ | _ <;>
          refine ⟨by simp [attemptLogCount, directAttempt, h1],
            by simp [hasOkStatusB, directAttempt, h1,
              List.countP_append, List.countP_cons], ?_⟩ <;>
        · intro e hmem
          simp [directAttempt, h1] at hmem
          all_goals
            first
            | (rcases hmem with rfl | rfl | rfl | rfl | rfl | rfl)
            | (rcases hmem with rfl | rfl | rfl | rfl | rfl)
            | (rcases hmem with rfl | rfl | rfl | rfl)
            | (rcases hmem with rfl | rfl | rfl)
            | (rcases hmem with rfl | rfl)
            | (rcases hmem with rfl)
          all_goals exact ⟨url, by simp, containsSub_append_right _ _⟩
      · rcases hd : dec cap.asString with _ | orig
        · refine ⟨by simp [attemptLogCount, hd], by simp [hasOkStatusB, hd], ?_⟩
          intro e hmem
          simp [hd] at hmem
          all_goals
            first
            | (rcases hmem with rfl | rfl)
            | (rcases hmem with rfl)
          all_goals exact ⟨url, by simp [hd], containsSub_append_right _ _⟩
        · rcases h1 : fetch 1 orig with d1 | _ | _ | _
          · refine ⟨by simp [attemptLogCount, hd, h1],
              by simp [hasOkStatusB, hd, h1, List.countP_append, List.countP_cons], ?_⟩
            intro e hmem
            simp [hd, h1] at hmem
            all_goals
              first
              | (rcases hmem with rfl | rfl | rfl)
              | (rcases hmem with rfl | rfl)
              | (rcases hmem with rfl)
            all_goals
              first
              | exact ⟨url, by simp [hd, h1], containsSub_append_right _ _⟩
              | exact ⟨orig, by simp [hd, h1], containsSub_append_right _ _⟩
          all_goals {
            rcases h2 : fetch 2 url with d2 | _ | _ | _ <;>
              refine ⟨by simp [attemptLogCount, directAttempt, hd, h1, h2,
                  List.countP_append, List.countP_cons],
                by simp [hasOkStatusB, directAttempt, hd, h1, h2,
                  List.countP_append, List.countP_cons], ?_⟩ <;>
            · intro e hmem
              simp [directAttempt, hd, h1, h2] at hmem
              all_goals
                first
                | (rcases hmem with rfl | rfl | rfl | rfl | rfl | rfl)
                | (rcases hmem with rfl | rfl | rfl | rfl | rfl)
                | (rcases hmem with rfl | rfl | rfl | rfl)
                | (rcases hmem with rfl | rfl | rfl)
                | (rcases hmem with rfl | rfl)
                | (rcases hmem with rfl)
              all_goals
                first
                | exact ⟨url, by simp [hd, h1, h2], containsSub_append_right _ _⟩
                | exact ⟨orig, by simp [hd, h1, h2], containsSub_append_right _ _⟩
          }
    }
  · rcases h0 : fetch 0 url with d | _ | _ | _ <;>
      refine ⟨by simp [attemptLogCount, directAttempt, h0],
        by simp [hasOkStatusB, directAttempt, h0, List.countP_cons], ?_⟩ <;>
    · intro e hmem
      simp [directAttempt, h0] at hmem
      all_goals
        first
        | (rcases hmem with rfl | rfl)
        | (rcases hmem with rfl)
      all_goals exact ⟨url, by simp, containsSub_append_right _ _⟩

/-! ## Supporting lemmas for the claims about filename derivation -/

theorem cleanBase_idem (b : String) : cleanBase (cleanBase b) = cleanBase b := by
  rw [cleanBase, cleanBase, toList_asString]
  exact congrArg List.asString
    (List.filter_eq_self.mpr (fun c hc => (List.mem_filter.1 hc).2))

theorem stripQuery_append_query (u qs : String) :
    stripQuery (u ++ "?" ++ qs) = stripQuery u := by
  rw [stripQuery, stripQuery]
  refine congrArg List.asString ?_
  have htl : (u ++ "?" ++ qs).toList = u.toList ++ '?' :: qs.toList := by
    rw [toList_append, toList_append]
    simp
  rw [htl, List.takeWhile_append]
  split
  next hlen =>
    have hq : List.takeWhile (fun c => decide (c ≠ '?')) ('?' :: qs.toList) = [] := by
      simp [List.takeWhile_cons]
    rw [hq, List.append_nil]
    exact ((List.takeWhile_prefix _).eq_of_length hlen).symm
  next => rfl

theorem bodyFilename_chars (base : String) (i : Nat) (u : String) :
    ∀ c ∈ (bodyFilename base i u).toList, isAllowedChar c = true ∨ c = '.' := by
  intro c hc
  rw [bodyFilename_toList] at hc
  rcases List.mem_append.1 hc with h | h
  · rcases List.mem_append.1 h with h' | h'
    · exact Or.inl (cleanBase_all_allowed base c h')
    · rcases List.mem_cons.1 h' with rfl | h''
      · exact Or.inl (by decide)
      · rcases natDigits_shape i c h'' with ⟨d, hd, rfl⟩
        refine Or.inl ?_
        interval_cases d <;> decide
  · rcases List.mem_cons.1 h with rfl | h'
    · exact Or.inr rfl
    · exact Or.inl ((ext_props u).2.1 c h' |>.2)

/-! ## Claim C2 -/

/-- Metadata of the C2 counterexample: a slug with a character outside
`[A-Za-z0-9-]` and a thumbnail URL with a query string. -/
def metaC2 : Meta := ⟨[("slug", .str "a_b"), ("url", .str "https://s/1"),
  ("thumbnail", .str "https://x/t.png?v=2.jpg")]⟩

/-- C2: the claim is false for the thumbnail: the derived thumbnail filename
keeps the raw base (the underscore survives) and the query string is not
stripped before the extension is derived (the extension comes out `jpg`, from
inside the query); the claimed derivation would have produced
`ab-thumbnail.png`. -/
theorem C2_counterexample :
    (processMarkdownImages (fun _ => .nullResult) "no images" "a_b.md" (some metaC2)).failures =
      [⟨"https://x/t.png?v=2.jpg", "a_b-thumbnail.jpg", "Download failed"⟩] ∧
    ("a_b-thumbnail.jpg" : String) ≠ "ab-thumbnail.png" := by
  exact ⟨by decide, by decide⟩

/-- C2 (amended): for body images the claim holds — the derived filename uses
the cleaned base (cleaning is idempotent, every character of the derived name
is in `[A-Za-z0-9-.]`) and the query string of the URL never influences it;
for the thumbnail, the raw base is used unchanged and the extension is taken
from the unstripped URL. -/
theorem C2_amended :
    (∀ (base : String) (i : Nat) (u : String),
      bodyFilename base i u = bodyFilename (cleanBase base) i u) ∧
    (∀ (base : String) (i : Nat) (u : String),
      ∀ c ∈ (bodyFilename base i u).toList, isAllowedChar c = true ∨ c = '.') ∧
    (∀ (base : String) (i : Nat) (u qs : String),
      bodyFilename base i (stripQuery (u ++ "?" ++ qs)) = bodyFilename base i (stripQuery u)) ∧
    (∀ (base turl : String),
      thumbFilename base turl = base ++ "-thumbnail." ++ extFromUrl turl) := by
  refine ⟨?_, bodyFilename_chars, ?_, fun _ _ => rfl⟩
  · intro base i u
    rw [bodyFilename, bodyFilename, cleanBase_idem]
  · intro base i u qs
    rw [stripQuery_append_query]

/-- Witness for C2 (amended) at concrete inputs. -/
theorem C2_amended_witness :
    bodyFilename "a_b" 1 "https://x/i.png" = bodyFilename (cleanBase "a_b") 1 "https://x/i.png" ∧
    (isAllowedChar 'a' = true ∨ 'a' = '.') ∧
    bodyFilename "a" 2 (stripQuery ("https://x/i.png" ++ "?" ++ "v=1")) =
      bodyFilename "a" 2 (stripQuery "https://x/i.png") := by
  refine ⟨C2_amended.1 "a_b" 1 "https://x/i.png",
    C2_amended.2.1 "a_b" 1 "https://x/i.png" 'a' (by decide),
    C2_amended.2.2.1 "a" 2 "https://x/i.png" "v=1"⟩

/-! ## Claim C3 -/

/-- Fetch oracle of the C3 counterexample: every network attempt returns a
non-success response, so the proxy fallback reaches the malformed embedded
URL and `decodeURIComponent` rejects. -/
def fetchC3 : Nat → String → FetchOutcome := fun _ _ => .notOk

/-- The C3 counterexample URL: a proxy URL with a malformed percent escape in
its embedded original URL. -/
def urlC3 : String := "https://proxy-prod.omnivore-image-cache.app/x/https%"

/-- The Image Acquirer, as the article converter consumes it, over `fetchC3`. -/
def dlC3 : String → DLResult := fun u => (downloadImage fetchC3 percentDecode u).res

/-- C3: the claim is false for a completion that settles as a rejection: the
acquirer rejects on `urlC3` (reachable behaviour of `downloadImage`), the
completion advances the per-article counter and records a failure, but no
`imageDownloadProgress` event is emitted at all. -/
theorem C3_counterexample :
    (downloadImage fetchC3 percentDecode urlC3).res = .thrown "URI malformed" ∧
    (processMarkdownImages dlC3
      "![a](https://proxy-prod.omnivore-image-cache.app/x/https%)" "a.md" none).completed = 1 ∧
    (processMarkdownImages dlC3
      "![a](https://proxy-prod.omnivore-image-cache.app/x/https%)" "a.md" none).events = [] ∧
    (processMarkdownImages dlC3
      "![a](https://proxy-prod.omnivore-image-cache.app/x/https%)" "a.md" none).failures.length
      = 1 := by
  exact ⟨by decide, by decide, by decide, by decide⟩

/-- C3 (amended): every completion — success, null result or rejection —
advances the per-article counter, whose final value is the number of body
images plus one for a present thumbnail; a progress event is emitted for
exactly the completions that do not reject; and when no fetch rejects, the
k-th event (counting from zero) carries progress `(k+1)/total * 100`. -/
theorem C3_amended (dl : String → DLResult) (markdown mdFilename : String) (meta : Option Meta) :
    (processMarkdownImages dl markdown mdFilename meta).completed =
      (scanImages markdown).length + thumbCount (meta.bind Meta.thumb) ∧
    (processMarkdownImages dl markdown mdFilename meta).events.length =
      ((match meta.bind Meta.thumb with
        | some t => if isThrownB (dl t) then 0 else 1
        | none => 0) +
       (scanImages markdown).countP (fun u => !(isThrownB (dl (stripQuery u))))) ∧
    ((∀ u ∈ scanImages markdown, ∀ m, dl (stripQuery u) ≠ .thrown m) →
      (∀ t, meta.bind Meta.thumb = some t → ∀ m, dl t ≠ .thrown m) →
      (processMarkdownImages dl markdown mdFilename meta).events.map (·.progress) =
        (List.range ((scanImages markdown).length + thumbCount (meta.bind Meta.thumb))).map
          (fun k => (((k + 1 : Nat) : ℚ) /
            ((((scanImages markdown).length + thumbCount (meta.bind Meta.thumb)) : Nat) : ℚ))
            * 100)) := by
  rw [processMarkdownImages_spec]
  refine ⟨by simp [Nat.add_comm], ?_, ?_⟩
  · simp only [List.length_append, bodyEvents_length]
    rcases ht : meta.bind Meta.thumb with _ | t
    · simp [thumbPartEvents]
    · rcases hdl : dl t with d | _ | m <;>
        simp [thumbPartEvents, hdl, isThrownB]
  · intro hbody hthumb
    rcases ht : meta.bind Meta.thumb with _ | t
    · simp only [List.map_append, thumbPartEvents, thumbCount]
      rw [bodyEvents_progress _ _ _ _ hbody]
      simp
    · rcases hdl : dl t with d | _ | m
      case thrown => exact absurd hdl (hthumb t ht m)
      all_goals {
        simp only [List.map_append, thumbPartEvents, hdl, thumbCount]
        rw [bodyEvents_progress _ _ _ _ hbody]
        rw [List.range_succ_eq_map]
        simp only [List.singleton_append, List.map_cons, List.map_map]
        refine congrArg₂ List.cons (by push_cast; ring_nf) ?_
        apply List.map_congr_left
        intro k _
        simp only [Function.comp]
        push_cast
        ring_nf
      }

/-- Witness for C3 (amended) on a two-image article with every fetch
settling as null: progress events 50 and 100 are emitted. -/
theorem C3_amended_witness :
    (processMarkdownImages (fun _ => DLResult.nullResult)
      "![a](https://x/i.png) ![b](https://y/j.png)" "a.md" none).events.map (·.progress) =
      [50, 100] := by
  have h := (C3_amended (fun _ => DLResult.nullResult)
    "![a](https://x/i.png) ![b](https://y/j.png)" "a.md" none).2.2
    (fun u _ m => by simp) (fun t ht => by cases ht)
  rw [h]
  have hlen : (scanImages "![a](https://x/i.png) ![b](https://y/j.png)").length = 2 := by
    decide
  rw [hlen]
  norm_num [thumbCount, List.range_succ]

/-! ## Claim C4 -/

/-- C4: the claim is false: a fetch attempt that completes with a
non-success HTTP response emits no log entry at all — here the only attempt
(the direct fetch) returns non-success, the acquirer returns null, and the
log list is empty. -/
theorem C4_counterexample :
    downloadImage (fun _ _ => .notOk) percentDecode "https://x/i.png" =
      ⟨.nullResult, []⟩ ∧
    specAttempts (fun _ _ => .notOk) percentDecode "https://x/i.png" = [.notOk] := by
  exact ⟨by decide, by decide⟩

/-- C4 (amended): each performed fetch attempt emits the info log when its
response resolves with an HTTP-success status, and the catch's warning (or,
for the final direct attempt, error) log when the attempt throws — either at
fetch time, or during the body read after the info log, so an ok-status
attempt whose body read rejects emits two log entries; an attempt resolving
with a non-success response emits none.  The total log count is the sum of
these per-attempt counts, the info-log count equals the number of attempts
resolving with an HTTP-success status, and every log message contains one of
the attempted URLs. -/
theorem C4_amended (fetch : Nat → String → FetchOutcome) (dec : String → Option String)
    (url : String) :
    (downloadImage fetch dec url).logs.length =
        ((specAttempts fetch dec url).map attemptLogCount).sum ∧
      (downloadImage fetch dec url).logs.countP (fun e => e.type == LogType.info) =
        (specAttempts fetch dec url).countP hasOkStatusB ∧
      ∀ e ∈ (downloadImage fetch dec url).logs,
        ∃ u' ∈ specAttemptUrls fetch dec url, containsSub e.message u' = true :=
  downloadImage_logs_facts fetch dec url

/-- Witness for C4 (amended): a direct fetch resolving ok whose body read
rejects yields two logs — one of them the info log — and a log message
containing the URL. -/
theorem C4_amended_witness :
    (downloadImage (fun _ _ => FetchOutcome.okErr) percentDecode "https://x/i.png").logs.length
        = 2 ∧
      (downloadImage (fun _ _ => FetchOutcome.okErr) percentDecode
        "https://x/i.png").logs.countP (fun e => e.type == LogType.info) = 1 ∧
      ∃ u' ∈ specAttemptUrls (fun _ _ => FetchOutcome.okErr) percentDecode "https://x/i.png",
        containsSub "Failed to download image: https://x/i.png" u' = true := by
  have h := C4_amended (fun _ _ => FetchOutcome.okErr) percentDecode "https://x/i.png"
  refine ⟨by rw [h.1]; decide, by rw [h.2.1]; decide, ?_⟩
  exact h.2.2 ⟨.error, "Failed to download image: https://x/i.png"⟩ (by decide)

/-! ## Claim C5 -/

/-- Fetch oracle of the C5 counterexample. -/
def fetchC5 : Nat → String → FetchOutcome := fun _ _ => .notOk

/-- C5: the claim is false: the acquirer can reject (throw) rather than
return null — a proxy URL whose proxy attempt fails and whose embedded
original URL is a malformed percent encoding makes the uncaught
`decodeURIComponent` call throw. -/
theorem C5_counterexample :
    (downloadImage fetchC5 percentDecode
      "https://proxy-prod.omnivore-image-cache.app/x/https%").res =
      .thrown "URI malformed" := by
  decide

/-- C5 (amended): the result of the acquirer is the thrown `URIError`
exactly under the decode-failure condition; otherwise the result is the body
of the first HTTP-success attempt (which short-circuits the rest), and null
exactly when every performed attempt failed. -/
theorem C5_amended (fetch : Nat → String → FetchOutcome) (dec : String → Option String)
    (url : String) :
    (downloadImage fetch dec url).res =
      (if dlThrowCondB fetch dec url then .thrown "URI malformed"
       else
         match firstOk (specAttempts fetch dec url) with
         | some d => .success d
         | none => .nullResult) ∧
    (dlThrowCondB fetch dec url = false →
      (((downloadImage fetch dec url).res = .nullResult) ↔
        firstOk (specAttempts fetch dec url) = none)) := by
  refine ⟨downloadImage_res_spec fetch dec url, ?_⟩
  intro hthrow
  rw [downloadImage_res_spec, if_neg (by simp [hthrow])]
  rcases hfo : firstOk (specAttempts fetch dec url) with _ | d <;> simp

/-- Witness for C5 (amended): a direct success returns the body. -/
theorem C5_amended_witness :
    (downloadImage (fun _ _ => FetchOutcome.ok [1, 2]) percentDecode "https://x/a.png").res =
      DLResult.success [1, 2] := by
  have h := (C5_amended (fun _ _ => FetchOutcome.ok [1, 2]) percentDecode "https://x/a.png").1
  rw [h]
  decide

/-! ## Claim C6 -/

/-- C6: an HTML input whose slug matches no metadata record contributes
nothing to the batch results or failure report — the whole batch computes the
same results and failures as the batch restricted to its matched inputs — and
each unmatched input leaves a warning log naming it, while the remaining
articles are still processed. -/
theorem C6 (cmc : String → String → String) (dl : String → DLResult)
    (files : List (String × String)) (metadata : List Meta) :
    (processZipContent cmc dl files metadata).results =
        (processZipContent cmc dl (files.filter (hasMeta metadata)) metadata).results ∧
      (processZipContent cmc dl files metadata).failures =
        (processZipContent cmc dl (files.filter (hasMeta metadata)) metadata).failures ∧
      ∀ f ∈ files, metadata.find? (slugMatch (slugOfFilename f.1)) = none →
        (⟨.warning, "No metadata found for " ++ f.1⟩ : LogEntry) ∈
          (processZipContent cmc dl files metadata).logs := by
  have h1 := foldl_articleStep_filter cmc dl metadata files
    (⟨[], [], [],
      [⟨.info, "Starting to process " ++ natStr files.length ++ " files"⟩]⟩ : ZipState)
  have h2 := foldl_articleStep_pi_congr cmc dl metadata (files.filter (hasMeta metadata))
    (⟨[], [], [],
      [⟨.info, "Starting to process " ++ natStr files.length ++ " files"⟩]⟩ : ZipState)
    (⟨[], [], [],
      [⟨.info, "Starting to process " ++
        natStr (files.filter (hasMeta metadata)).length ++ " files"⟩]⟩ : ZipState)
    rfl rfl rfl
  refine ⟨?_, ?_, ?_⟩
  · simp only [processZipContent]
    rw [h1.1.trans h2.1, h1.2.1.trans h2.2.1]
  · simp only [processZipContent]
    rw [h1.2.2.trans h2.2.2]
  · intro f hf hnone
    simp only [processZipContent]
    exact List.mem_append_left _
      (foldl_articleStep_warning cmc dl metadata files _ f hf hnone)

/-- Witness for C6 on a batch holding one orphan input and no metadata. -/
theorem C6_witness :
    (⟨.warning, "No metadata found for orphan.html"⟩ : LogEntry) ∈
      (processZipContent cmcId (fun _ => DLResult.nullResult)
        [("orphan.html", "x")] []).logs := by
  have h := (C6 cmcId (fun _ => DLResult.nullResult) [("orphan.html", "x")] []).2.2
    ("orphan.html", "x") (by decide) (by decide)
  simpa using h

/-! ## Claim C8 -/

/-- Metadata of the C8 counterexample: the article URL string field equals a
body-image URL. -/
def metaC8 : Meta := ⟨[("slug", .str "a"), ("url", .str "https://x/i.png")]⟩

/-- C8: the claim is false on the final output Markdown: a successful
body-image rewrite replaces the first occurrence of the URL anywhere in the
document, which here lies inside the front-matter `url:` field, so the output
no longer begins with the serialization of the metadata record (the body
reference keeps the remote URL instead). -/
theorem C8_counterexample :
    (convertHtmlToMarkdown cmcId (fun _ => .success [9]) "![a](https://x/i.png)"
        "https://x/i.png" (some metaC8)).1.md =
      "---\nslug: \"a\"\nurl: \"./attachments/a-1.png\"\n---\n\n![a](https://x/i.png)" ∧
    ("---\nslug: \"a\"\nurl: \"https://x/i.png\"\n---\n\n").toList.isPrefixOf
      (convertHtmlToMarkdown cmcId (fun _ => .success [9]) "![a](https://x/i.png)"
        "https://x/i.png" (some metaC8)).1.md.toList = false := by
  exact ⟨by decide, by decide⟩

/-- C8 (amended): the Markdown produced by front-matter injection begins with
a block delimited by `---` lines holding each metadata field as `key: value`
(string values double-quoted, other values by their literal rendering) in the
record's own field order; the final output still begins with this block
whenever no body-image fetch succeeds, and in general it is this block-headed
text with first occurrences of successfully fetched URLs substituted. -/
theorem C8_amended (cmc : String → String → String) (dl : String → DLResult)
    (html url : String) (m : Meta) :
    withFrontMatter m (cmc html url) =
        "---\n" ++ String.intercalate "\n" (m.fields.map serializeField) ++ "\n---\n\n" ++
          cmc html url ∧
      (∀ (k s : String), serializeField (k, .str s) = k ++ ": " ++ "\"" ++ s ++ "\"") ∧
      (∀ (k r : String), serializeField (k, .other r) = k ++ ": " ++ r) ∧
      ((∀ u ∈ scanImages (withFrontMatter m (cmc html url)), ∀ d,
          dl (stripQuery u) ≠ .success d) →
        (convertHtmlToMarkdown cmc dl html url (some m)).1.md =
          withFrontMatter m (cmc html url)) := by
  refine ⟨rfl, fun _ _ => rfl, fun _ _ => rfl, ?_⟩
  intro hns
  rw [convertHtmlToMarkdown_fst, processMarkdownImages_spec]
  exact bodyMd_no_success dl _ _ _ _ hns

/-- Witness for C8 (amended): with every fetch failing, the output keeps its
front-matter block intact. -/
theorem C8_amended_witness :
    (convertHtmlToMarkdown cmcId (fun _ => DLResult.nullResult) "![a](https://x/i.png)"
        "https://s/a" (some metaC8)).1.md =
      withFrontMatter metaC8 (cmcId "![a](https://x/i.png)" "https://s/a") := by
  exact (C8_amended cmcId (fun _ => DLResult.nullResult) "![a](https://x/i.png)"
    "https://s/a" metaC8).2.2.2 (fun u _ d => by simp)

/-! ## Claim C9 -/

/-- Metadata of the C9 counterexample: the thumbnail URL also occurs as a
body image. -/
def metaC9 : Meta := ⟨[("slug", .str "a"), ("url", .str "https://site/a"),
  ("thumbnail", .str "https://x/t.png")]⟩

/-- C9: the claim is false in its "always contains the original remote URL"
part: the thumbnail download succeeds and rewrites only the in-memory
metadata, but a successful body-image fetch of the same URL replaces its
first occurrence, which lies in the front-matter thumbnail line, so the
output thumbnail field carries the body image's attachment path instead of
the original URL. -/
theorem C9_counterexample :
    (convertHtmlToMarkdown cmcId (fun _ => .success [7]) "![x](https://x/t.png)"
        "https://site/a" (some metaC9)).1.md =
      "---\nslug: \"a\"\nurl: \"https://site/a\"\nthumbnail: \"./attachments/a-1.png\"\n---\n\n![x](https://x/t.png)" ∧
    containsSub
      (convertHtmlToMarkdown cmcId (fun _ => .success [7]) "![x](https://x/t.png)"
        "https://site/a" (some metaC9)).1.md "thumbnail: \"https://x/t.png\"" = false ∧
    (convertHtmlToMarkdown cmcId (fun _ => .success [7]) "![x](https://x/t.png)"
        "https://site/a" (some metaC9)).1.meta =
      some ⟨[("slug", .str "a"), ("url", .str "https://site/a"),
        ("thumbnail", .str "./attachments/a-thumbnail.png")]⟩ := by
  exact ⟨by decide, by decide, by decide⟩

/-- C9 (amended): the front matter is serialized before any fetch is
dispatched (the text handed to image processing is the block-prefixed one);
the thumbnail handler never touches the Markdown text — the output text is
identical to a run with no metadata at all — and a successful thumbnail fetch
mutates exactly the in-memory thumbnail field while a non-success leaves the
metadata unchanged. -/
theorem C9_amended (cmc : String → String → String) (dl : String → DLResult)
    (html url markdown mdFilename : String) (m : Meta) :
    (convertHtmlToMarkdown cmc dl html url (some m)).1 =
        processMarkdownImages dl (withFrontMatter m (cmc html url)) (m.slugOr ++ ".md")
          (some m) ∧
      (processMarkdownImages dl markdown mdFilename (some m)).md =
        (processMarkdownImages dl markdown mdFilename none).md ∧
      ∀ t, m.thumb = some t →
        ((∀ d, dl t ≠ .success d) →
          (processMarkdownImages dl markdown mdFilename (some m)).meta = some m) ∧
        (∀ d, dl t = .success d →
          (processMarkdownImages dl markdown mdFilename (some m)).meta =
            some (m.setField "thumbnail"
              (.str ("./attachments/" ++
                thumbFilename (dropSuffixStr mdFilename ".md") t)))) := by
  refine ⟨rfl, ?_, ?_⟩
  · rw [processMarkdownImages_spec, processMarkdownImages_spec]
  · intro t ht
    have hb : (Option.some m).bind Meta.thumb = some t := by simp [ht]
    constructor
    · intro hnd
      rw [processMarkdownImages_spec]
      simp only [hb]
      rcases hdl : dl t with d | _ | msg
      · exact absurd hdl (hnd d)
      · simp [thumbPartMeta, hdl]
      · simp [thumbPartMeta, hdl]
    · intro d hdl
      rw [processMarkdownImages_spec]
      simp only [hb]
      simp [thumbPartMeta, hdl]

/-- Witness for C9 (amended) on a concrete article with a successful
thumbnail fetch. -/
theorem C9_amended_witness :
    (processMarkdownImages (fun _ => DLResult.success [7]) "body" "a.md"
        (some metaC9)).meta =
      some (metaC9.setField "thumbnail"
        (.str ("./attachments/" ++ thumbFilename (dropSuffixStr "a.md" ".md")
          "https://x/t.png"))) := by
  exact ((C9_amended cmcId (fun _ => DLResult.success [7]) "h" "u" "body" "a.md"
    metaC9).2.2 "https://x/t.png" (by decide)).2 [7] rfl

/-! ## Claim C10 -/

theorem bodyFails_length_all_null (dl : String → DLResult) (base : String)
    (hnull : ∀ u, dl u = .nullResult) :
    ∀ (ms : List String) (c : Nat), (bodyFails dl base c ms).length = ms.length := by
  intro ms
  induction ms with
  | nil => intro c; rfl
  | cons u t ih =>
    intro c
    rw [bodyFails, hnull (stripQuery u)]
    simp [ih (c + 1)]

theorem bodyFails_counter_ge (dl : String → DLResult) (base : String) :
    ∀ (ms : List String) (c : Nat) (name : String),
      name ∈ (bodyFails dl base c ms).map (·.filename) →
      ∃ j u', c ≤ j ∧ name = bodyFilename base j (stripQuery u') := by
  intro ms
  induction ms with
  | nil => intro c name h; cases h
  | cons u t ih =>
    intro c name h
    rw [bodyFails, List.map_append] at h
    rcases List.mem_append.1 h with h' | h'
    · rcases hdl : dl (stripQuery u) with d | _ | msg <;> rw [hdl] at h'
      · cases h'
      all_goals {
        simp at h'
        exact ⟨c, u, Nat.le_refl c, h'⟩
      }
    · rcases ih (c + 1) name h' with ⟨j, u', hj, hn⟩
      exact ⟨j, u', by omega, hn⟩

theorem bodyFails_names_nodup (dl : String → DLResult) (base : String) :
    ∀ (ms : List String) (c : Nat),
      ((bodyFails dl base c ms).map (·.filename)).Nodup := by
  intro ms
  induction ms with
  | nil => intro c; simp [bodyFails]
  | cons u t ih =>
    intro c
    rw [bodyFails, List.map_append]
    rcases hdl : dl (stripQuery u) with d | _ | msg
    · simpa [hdl] using ih (c + 1)
    all_goals {
      dsimp only
      simp only [List.map_cons, List.map_nil, List.singleton_append, List.nodup_cons]
      refine ⟨?_, ih (c + 1)⟩
      intro hmem
      rcases bodyFails_counter_ge dl base t (c + 1) _ hmem with ⟨j, u', hj, hn⟩
      rcases bodyFilename_parts hn with ⟨_, hc, _⟩
      omega
    }

/-- C10: identical image URLs are not deduplicated: the scanner keeps every
occurrence (concretely two for a duplicated URL); every occurrence advances
the per-article total and completion; with every fetch settling null, each
occurrence records its own failure under its own counter-derived filename,
and those filenames are pairwise distinct; with every fetch succeeding, a
duplicated URL yields two distinct attachment files. -/
theorem C10 :
    scanImages "![a](https://x/i.png) ![b](https://x/i.png)" =
        ["https://x/i.png", "https://x/i.png"] ∧
      (∀ (dl : String → DLResult) (markdown mdFilename : String),
        (processMarkdownImages dl markdown mdFilename none).completed =
          (scanImages markdown).length) ∧
      (∀ (dl : String → DLResult) (markdown mdFilename : String),
        (∀ u, dl u = .nullResult) →
        (processMarkdownImages dl markdown mdFilename none).failures.length =
            (scanImages markdown).length ∧
          ((processMarkdownImages dl markdown mdFilename none).failures.map
            (·.filename)).Nodup) ∧
      keysOf (processMarkdownImages (fun _ => .success [1])
          "![a](https://x/i.png) ![b](https://x/i.png)" "a.md" none).images =
        ["a-1.png", "a-2.png"] := by
  refine ⟨by decide, ?_, ?_, by decide⟩
  · intro dl markdown mdFilename
    rw [processMarkdownImages_spec]
    simp [thumbCount]
  · intro dl markdown mdFilename hnull
    rw [processMarkdownImages_spec]
    constructor
    · simp [thumbPartFails, bodyFails_length_all_null dl _ hnull]
    · simpa [thumbPartFails] using bodyFails_names_nodup dl _ (scanImages markdown) 1

/-- Witness for C10 at a concrete duplicated-URL article with failing
fetches. -/
theorem C10_witness :
    (processMarkdownImages (fun _ => DLResult.nullResult)
        "![a](https://x/i.png) ![b](https://x/i.png)" "a.md" none).failures.length = 2 := by
  have h := (C10.2.2.1 (fun _ => DLResult.nullResult)
    "![a](https://x/i.png) ![b](https://x/i.png)" "a.md" (fun u => rfl)).1
  rw [h]
  decide

/-! ## Claim C1 -/

/-- First article of the C1 counterexample (slug with an underscore). -/
def metaAB1 : Meta := ⟨[("slug", .str "a_b"), ("url", .str "https://s/1")]⟩

/-- Second article of the C1 counterexample (the underscore-free slug). -/
def metaAB2 : Meta := ⟨[("slug", .str "ab"), ("url", .str "https://s/2")]⟩

/-- HTML inputs of the C1 counterexample. -/
def filesC1 : List (String × String) :=
  [("a_b.html", "![](https://x/one.png)"), ("ab.html", "![](https://x/two.png)")]

/-- Image Acquirer oracle of the C1 counterexample: everything succeeds,
with distinguishable bodies. -/
def dlC1 : String → DLResult :=
  fun u => if u = "https://x/one.png" then .success [1] else .success [2]

/-- C1: the "never collide for distinct slugs" part of the claim is false:
the slugs `a_b` and `ab` are distinct but clean to the same base, so both
articles derive the image filename `ab-1.png`; in the batch output the later
article's bytes overwrite the earlier one's, a single attachment result
remains, and both Markdown documents reference it. -/
theorem C1_counterexample :
    bodyFilename "a_b" 1 "https://x/one.png" = bodyFilename "ab" 1 "https://x/two.png" ∧
    ("a_b" : String) ≠ "ab" ∧
    (processZipContent cmcId dlC1 filesC1 [metaAB1, metaAB2]).results =
      [⟨"a_b.md",
        .text "---\nslug: \"a_b\"\nurl: \"https://s/1\"\n---\n\n![](./attachments/ab-1.png)",
        false⟩,
       ⟨"ab.md",
        .text "---\nslug: \"ab\"\nurl: \"https://s/2\"\n---\n\n![](./attachments/ab-1.png)",
        false⟩,
       ⟨"attachments/ab-1.png", .bin [2], true⟩] := by
  exact ⟨by decide, by decide, by decide⟩

/-- C1 (amended): an article's own derived image filenames never collide
(distinct counters give distinct names, and a thumbnail filename never equals
a body filename); two articles collide only when their CLEANED slugs
coincide (distinct cleaned slugs never collide); and the batch output set's
filenames are pairwise distinct whenever the articles' slugs are pairwise
distinct, because the images are merged into a filename-keyed object. -/
theorem C1_amended :
    (∀ (b1 b2 u1 u2 : String) (i j : Nat), i ≠ j →
      bodyFilename b1 i u1 ≠ bodyFilename b2 j u2) ∧
    (∀ (tb tu b u : String) (i : Nat), thumbFilename tb tu ≠ bodyFilename b i u) ∧
    (∀ (b1 b2 u1 u2 : String) (i1 i2 : Nat), cleanBase b1 ≠ cleanBase b2 →
      bodyFilename b1 i1 u1 ≠ bodyFilename b2 i2 u2) ∧
    (∀ (cmc : String → String → String) (dl : String → DLResult)
      (files : List (String × String)) (metadata : List Meta),
      (files.map (fun f => slugOfFilename f.1)).Nodup →
      ((processZipContent cmc dl files metadata).results.map (·.filename)).Nodup) := by
  refine ⟨?_, ?_, ?_, ?_⟩
  · intro b1 b2 u1 u2 i j hij h
    exact hij (bodyFilename_parts h).2.1
  · exact fun tb tu b u i => thumb_ne_body tb tu b u i
  · intro b1 b2 u1 u2 i1 i2 hcb h
    exact hcb (bodyFilename_parts h).1
  · intro cmc dl files metadata hnd
    simp only [processZipContent]
    rw [List.map_append, List.nodup_append]
    have hres := foldl_articleStep_results cmc dl metadata files
      (⟨[], [], [],
        [⟨.info, "Starting to process " ++ natStr files.length ++ " files"⟩]⟩ : ZipState)
    refine ⟨?_, ?_, ?_⟩
    · rw [hres]
      simp only [List.nil_append, batchMdResults_filenames]
      have hsub : ((files.filter (hasMeta metadata)).map
          (fun f => slugOfFilename f.1)).Sublist (files.map (fun f => slugOfFilename f.1)) :=
        (List.filter_sublist files).map _
      have hnd2 : ((files.filter (hasMeta metadata)).map
          (fun f => slugOfFilename f.1)).Nodup := hsub.nodup hnd
      have : (files.filter (hasMeta metadata)).map (fun f => slugOfFilename f.1 ++ ".md") =
          ((files.filter (hasMeta metadata)).map (fun f => slugOfFilename f.1)).map
            (· ++ ".md") := by
        rw [List.map_map]
        rfl
      rw [this]
      exact hnd2.map (fun a b h => append_right_cancel_str h)
    · have hkeys : (keysOf ((files.foldl (articleStep cmc dl metadata)
          (⟨[], [], [],
            [⟨.info, "Starting to process " ++ natStr files.length ++ " files"⟩]⟩ :
              ZipState))).allImages).Nodup :=
        foldl_articleStep_allImages_nodup cmc dl metadata files _ (by simp [keysOf])
      have : ((files.foldl (articleStep cmc dl metadata)
          (⟨[], [], [],
            [⟨.info, "Starting to process " ++ natStr files.length ++ " files"⟩]⟩ :
              ZipState)).allImages.map
            (fun kv => (⟨"attachments/" ++ kv.1, .bin kv.2, true⟩ : CResult))).map
            (·.filename) =
          (keysOf ((files.foldl (articleStep cmc dl metadata)
            (⟨[], [], [],
              [⟨.info, "Starting to process " ++ natStr files.length ++ " files"⟩]⟩ :
                ZipState))).allImages).map ("attachments/" ++ ·) := by
        rw [keysOf, List.map_map, List.map_map]
        rfl
      rw [this]
      exact hkeys.map (fun a b h => append_left_cancel_str h)
    · intro a ha hmem
      rw [hres] at ha
      simp only [List.nil_append, batchMdResults_filenames, List.mem_map] at ha
      rcases ha with ⟨f, _, rfl⟩
      simp only [List.mem_map] at hmem
      rcases hmem with ⟨r, ⟨kv, hkv, rfl⟩, hrf⟩
      have hk : kv.1 ∈ keysOf ((files.foldl (articleStep cmc dl metadata)
          (⟨[], [], [],
            [⟨.info, "Starting to process " ++ natStr files.length ++ " files"⟩]⟩ :
              ZipState))).allImages :=
        List.mem_map.2 ⟨kv, hkv, rfl⟩
      rcases foldl_articleStep_allImages_mem cmc dl metadata files _ kv.1 hk with h' | ⟨g, _, hg⟩
      · simp [keysOf] at h'
      · exact mdname_ne_attach (articleImgs_shape cmc dl metadata g kv.1 hg) hrf.symm

/-- Witness for C1 (amended) at concrete inputs. -/
theorem C1_amended_witness :
    bodyFilename "a" 1 "https://x/i.png" ≠ bodyFilename "a" 2 "https://x/i.png" ∧
    thumbFilename "a" "https://x/t.png" ≠ bodyFilename "a" 1 "https://x/i.png" ∧
    bodyFilename "aa" 1 "https://x/i.png" ≠ bodyFilename "ab" 1 "https://x/i.png" ∧
    ((processZipContent cmcId dlC1 filesC1 [metaAB1, metaAB2]).results.map
      (·.filename)).Nodup := by
  refine ⟨C1_amended.1 "a" "a" "https://x/i.png" "https://x/i.png" 1 2 (by decide),
    C1_amended.2.1 "a" "https://x/t.png" "a" "https://x/i.png" 1,
    C1_amended.2.2.1 "aa" "ab" "https://x/i.png" "https://x/i.png" 1 1 (by decide),
    C1_amended.2.2.2 cmcId dlC1 filesC1 [metaAB1, metaAB2] (by decide)⟩

/-! ## Claim C7 -/

theorem keys_bodyImages_mono (dl : String → DLResult) (base : String) :
    ∀ (ms : List String) (imgs : List (String × List Nat)) (c : Nat) (k : String),
      k ∈ keysOf imgs → k ∈ keysOf (bodyImages dl base imgs c ms) := by
  intro ms
  induction ms with
  | nil => intro imgs c k h; exact h
  | cons u t ih =>
    intro imgs c k h
    rw [bodyImages]
    rcases hdl : dl (stripQuery u) with d | _ | m <;> dsimp only
    · exact ih _ _ _ (mem_keysOf_insertJS.2 (Or.inl h))
    · exact ih _ _ _ h
    · exact ih _ _ _ h

theorem keys_bodyImages_success (dl : String → DLResult) (base : String) :
    ∀ (ms : List String) (imgs : List (String × List Nat)) (c : Nat) (u : String),
      u ∈ ms → (∃ d, dl (stripQuery u) = .success d) →
      ∃ j, bodyFilename base j (stripQuery u) ∈ keysOf (bodyImages dl base imgs c ms) := by
  intro ms
  induction ms with
  | nil => intro imgs c u h; cases h
  | cons v t ih =>
    intro imgs c u hu hd
    rcases List.mem_cons.1 hu with rfl | hmem
    · rcases hd with ⟨d, hdl⟩
      rw [bodyImages, hdl]
      exact ⟨c, keys_bodyImages_mono dl base t _ _ _
        (mem_keysOf_insertJS.2 (Or.inr rfl))⟩
    · rw [bodyImages]
      rcases hdl : dl (stripQuery v) with d | _ | m <;> dsimp only <;>
        exact ih _ _ u hmem hd

theorem attach_beq_iff (a b : String) :
    (("attachments/" ++ a : String) == ("attachments/" ++ b : String)) = (a == b) := by
  by_cases h : a = b
  · rw [h]
    simp
  · have : ("attachments/" ++ a : String) ≠ ("attachments/" ++ b : String) :=
      fun hc => h (append_left_cancel_str hc)
    simp [h, this]

/-- Claim apparatus for C7, from the claim's words: the names of local
attachment references in a Markdown text — each occurrence of the literal
`](./attachments/` followed by a nonempty run of non-space non-parenthesis
characters and a closing parenthesis contributes that run. -/
def localAttachmentRefs : List Char → List (List Char)
  | [] => []
  | c :: t =>
    (if ("](./attachments/".toList).isPrefixOf (c :: t) then
      (let rest := (c :: t).drop 16
       let name := rest.takeWhile (fun c => !urlStop c)
       match rest.dropWhile (fun c => !urlStop c) with
       | ')' :: _ => if name.isEmpty then [] else [name]
       | _ => [])
     else []) ++ localAttachmentRefs t

/-- Markdown body of the C7 counterexample: a URL that is a strict prefix of
an earlier URL in the document. -/
def mdC7 : String := "![a](https://x/i.png2) ![b](https://x/i.png)"

/-- Acquirer oracle of the C7 counterexample: the short URL succeeds, the
long one fails. -/
def dlC7 : String → DLResult :=
  fun u => if u = "https://x/i.png" then .success [5] else .nullResult

/-- Metadata of the C7 counterexample. -/
def metaC7 : Meta := ⟨[("slug", .str "c"), ("url", .str "https://s/c")]⟩

/-- C7: the claim is false at the reference level: rewriting the successful
image replaces the first literal occurrence of its URL, which here is a
substring of the earlier (failed) image's URL, so the output Markdown
carries the local reference `./attachments/c-2.png2`, for which no
`ConversionResult` exists (the only attachment is `attachments/c-2.png`). -/
theorem C7_counterexample :
    (processZipContent cmcId dlC7 [("c.html", mdC7)] [metaC7]).results.map (·.filename) =
        ["c.md", "attachments/c-2.png"] ∧
      (∃ r ∈ (processZipContent cmcId dlC7 [("c.html", mdC7)] [metaC7]).results,
        r.content = .text
          "---\nslug: \"c\"\nurl: \"https://s/c\"\n---\n\n![a](./attachments/c-2.png2) ![b](https://x/i.png)") ∧
      (localAttachmentRefs
        ("---\nslug: \"c\"\nurl: \"https://s/c\"\n---\n\n![a](./attachments/c-2.png2) ![b](https://x/i.png)").toList).map
          List.asString = ["c-2.png2"] ∧
      ∀ r ∈ (processZipContent cmcId dlC7 [("c.html", mdC7)] [metaC7]).results,
        r.filename ≠ "attachments/c-2.png2" := by
  exact ⟨by decide, by decide, by decide, by decide⟩

/-- C7 (amended): the map-level round trip holds: every successfully fetched
body image stores its derived filename in the article's images object, and
every filename in the batch's merged image object yields exactly one
`ConversionResult` named `attachments/{name}` with the binary flag set; but a
rewritten `./attachments/{name}` reference in the output Markdown may fail to
correspond to any result, because first-occurrence replacement can hit a
substring of a different, unreplaced URL. -/
theorem C7_amended (cmc : String → String → String) (dl : String → DLResult)
    (files : List (String × String)) (metadata : List Meta) :
    (∀ name ∈ keysOf (processZipContent cmc dl files metadata).allImages,
      ((processZipContent cmc dl files metadata).results.countP
        (fun r => r.filename == "attachments/" ++ name && r.binary)) = 1) ∧
    (∀ (dl' : String → DLResult) (markdown mdFilename : String) (meta : Option Meta),
      ∀ u ∈ scanImages markdown, (∃ d, dl' (stripQuery u) = .success d) →
        ∃ j, bodyFilename (dropSuffixStr mdFilename ".md") j (stripQuery u) ∈
          keysOf (processMarkdownImages dl' markdown mdFilename meta).images) := by
  constructor
  · intro name hname
    simp only [processZipContent] at hname ⊢
    rw [List.countP_append]
    have hres := foldl_articleStep_results cmc dl metadata files
      (⟨[], [], [],
        [⟨.info, "Starting to process " ++ natStr files.length ++ " files"⟩]⟩ : ZipState)
    have h0 : ((files.foldl (articleStep cmc dl metadata)
        (⟨[], [], [],
          [⟨.info, "Starting to process " ++ natStr files.length ++ " files"⟩]⟩ :
            ZipState)).results.countP
        (fun r => r.filename == "attachments/" ++ name && r.binary)) = 0 := by
      rw [hres]
      refine List.countP_eq_zero.2 ?_
      intro r hr
      rw [List.nil_append] at hr
      have := batchMdResults_binary cmc dl metadata files r hr
      simp [this]
    rw [h0]
    rw [List.countP_map]
    have hcong : (List.countP
        ((fun r : CResult => r.filename == "attachments/" ++ name && r.binary) ∘
          (fun kv : String × List Nat => (⟨"attachments/" ++ kv.1, .bin kv.2, true⟩ : CResult)))
        ((files.foldl (articleStep cmc dl metadata)
          (⟨[], [], [],
            [⟨.info, "Starting to process " ++ natStr files.length ++ " files"⟩]⟩ :
              ZipState)).allImages)) =
        (List.countP ((fun k => k == name) ∘ (fun kv : String × List Nat => kv.1))
          ((files.foldl (articleStep cmc dl metadata)
            (⟨[], [], [],
              [⟨.info, "Starting to process " ++ natStr files.length ++ " files"⟩]⟩ :
                ZipState)).allImages)) := by
      apply List.countP_congr
      intro kv _
      simp only [Function.comp]
      rw [attach_beq_iff]
      simp
    rw [hcong]
    have hnodup : (keysOf ((files.foldl (articleStep cmc dl metadata)
        (⟨[], [], [],
          [⟨.info, "Starting to process " ++ natStr files.length ++ " files"⟩]⟩ :
            ZipState))).allImages).Nodup :=
      foldl_articleStep_allImages_nodup cmc dl metadata files _ (by simp [keysOf])
    have hfin : (List.countP ((fun k => k == name) ∘ (fun kv : String × List Nat => kv.1))
        ((files.foldl (articleStep cmc dl metadata)
          (⟨[], [], [],
            [⟨.info, "Starting to process " ++ natStr files.length ++ " files"⟩]⟩ :
              ZipState)).allImages)) =
        List.count name (keysOf ((files.foldl (articleStep cmc dl metadata)
          (⟨[], [], [],
            [⟨.info, "Starting to process " ++ natStr files.length ++ " files"⟩]⟩ :
              ZipState))).allImages) := (List.countP_map _ _ _).symm
    rw [hfin, Nat.zero_add]
    exact List.count_eq_one_of_mem hnodup hname
  · intro dl' markdown mdFilename meta u hu hd
    rw [processMarkdownImages_spec]
    exact keys_bodyImages_success dl' _ (scanImages markdown) _ 1 u hu hd

/-- Witness for C7 (amended) on the two-article colliding batch: the single
attachment name yields exactly one binary result. -/
theorem C7_amended_witness :
    ((processZipContent cmcId dlC1 filesC1 [metaAB1, metaAB2]).results.countP
      (fun r => r.filename == "attachments/" ++ "ab-1.png" && r.binary)) = 1 := by
  exact (C7_amended cmcId dlC1 filesC1 [metaAB1, metaAB2]).1 "ab-1.png" (by decide)

end OmniMD
